import Mathlib

/-!
# KeepKey USB transport (`keepkey_board/local/baremetal/usb_driver.c`)

A shallow embedding of the USB HID driver of the KeepKey firmware: the two
chunking loops of the transmit path, the control-request handler that serves
the HID report descriptors, the per-channel receive handlers and the
configuration callback that binds them to their endpoints.

Conventions of the embedding:

* a byte (`uint8_t`) is a `Fin 256`; a `uint32_t` is a `Nat` reduced `% 2^32`
  wherever the C arithmetic can overflow;
* a pointer to a source buffer is the function `i ↦ byte at address p + i`;
* the calls into libopencm3 (`usbd_ep_write_packet`, `usbd_ep_read_packet`,
  `usbd_ep_setup`, ...) are not part of the driver: writes are logged together
  with the value the hardware returned, which is supplied by a response
  function; reads take the content of the endpoint FIFO as input;
* the build switches `DEBUG_LINK` and `HAVE_U2F` are the two fields of
  `Build`;
* loops that may spin are given fuel and report whether they returned.
-/

namespace KeepKey

/-! ## Constants -/

/-- A byte, `uint8_t`. -/
abbrev Byte := Fin 256

/-- Modulus of `uint32_t` arithmetic. -/
def UINT32_MOD : Nat := 4294967296

/-- Modelled from the spec: `USB_SEGMENT_SIZE` is declared in `keepkey_board.h`
(through `usb_driver.h`), which is not among the sources; the spec fixes the
packet size at 64 bytes for all channels. -/
def USB_SEGMENT_SIZE : Nat := 64

/-- Modelled from the spec: `ENDPOINT_ADDRESS_IN` is declared in the board
header, which is not among the sources; endpoint 1, direction IN (`0x81`, the
request type of an interface-IN GET_DESCRIPTOR). -/
def ENDPOINT_ADDRESS_IN : Nat := 0x81

/-- Modelled from the spec: `ENDPOINT_ADDRESS_OUT` is declared in the board
header, which is not among the sources. The spec only asks that endpoint
addresses be unique across channels; the value taken is endpoint 1, direction
OUT, after the pattern of the U2F pair `0x83`/`0x03` defined in the driver. -/
def ENDPOINT_ADDRESS_OUT : Nat := 0x01

/-- Modelled from the spec: `ENDPOINT_ADDRESS_DEBUG_IN` is declared in the board
header, which is not among the sources. The spec only asks that endpoint
addresses be unique across channels; the value taken is endpoint 2, direction
IN, after the pattern of the U2F pair. -/
def ENDPOINT_ADDRESS_DEBUG_IN : Nat := 0x82

/-- Modelled from the spec: `ENDPOINT_ADDRESS_DEBUG_OUT` is declared in the
board header, which is not among the sources. The spec only asks that endpoint
addresses be unique across channels; the value taken is endpoint 2, direction
OUT, after the pattern of the U2F pair. -/
def ENDPOINT_ADDRESS_DEBUG_OUT : Nat := 0x02

/-- `#define ENDPOINT_ADDRESS_U2F_IN (0x83)`. -/
def ENDPOINT_ADDRESS_U2F_IN : Nat := 0x83

/-- `#define ENDPOINT_ADDRESS_U2F_OUT (0x03)`. -/
def ENDPOINT_ADDRESS_U2F_OUT : Nat := 0x03

/-- The standard request code `USB_REQ_GET_DESCRIPTOR` of libopencm3's
`usbstd.h` (USB 2.0, table 9-4). -/
def USB_REQ_GET_DESCRIPTOR : Nat := 6

/-! ## Transmit path -/

/-- The effect of `memcpy(dst + off, src, n)` on a buffer held as a list: the
`n` bytes from index `off` on are replaced by `src 0, ..., src (n - 1)`. -/
def memcpy (dst : List Byte) (off : Nat) (src : Nat → Byte) (n : Nat) : List Byte :=
  (List.range dst.length).map fun i =>
    if off ≤ i ∧ i < off + n then src (i - off) else dst.getD i 0

/-- One call of `usbd_ep_write_packet(dev, endpoint, buf, len)`: the device
handle, the endpoint, the `len` bytes handed over and the value the call
returned (`0`: the endpoint was busy and nothing was queued). -/
structure TxWrite where
  dev : Option Nat
  endpoint : Nat
  data : List Byte
  result : Nat
deriving DecidableEq, Repr

/-- The outcome of running a transmit function with some fuel: its return value
(`none` when the fuel ran out while it was still looping) and every call of
`usbd_ep_write_packet` it made, oldest first. -/
structure TxRun where
  ret : Option Bool
  log : List TxWrite
deriving DecidableEq, Repr

/-- The busy-wait `while(usbd_ep_write_packet(usbd_dev, endpoint, tmp_buffer,
USB_SEGMENT_SIZE) == 0) {};`. The `k`-th call of a transmission returns `hw k`.
The result tells whether the loop was left (a call returned non-zero) within
`fuel` calls. -/
def write_until_accepted (hw : Nat → Nat) (usbd_dev : Option Nat) (endpoint : Nat)
    (tmp_buffer : List Byte) : Nat → List TxWrite → Bool × List TxWrite
  | 0, log => (false, log)
  | fuel + 1, log =>
    let r := hw log.length
    let log1 := log ++ [⟨usbd_dev, endpoint, tmp_buffer.take USB_SEGMENT_SIZE, r⟩]
    if r = 0 then write_until_accepted hw usbd_dev endpoint tmp_buffer fuel log1
    else (true, log1)

/-- The loop of `usb_tx_helper` from a given `pos`. `fuel` bounds the number of
iterations, and the number of write attempts of each of them. -/
def usb_tx_helper_loop (hw : Nat → Nat) (usbd_dev : Option Nat) (message : Nat → Byte)
    (len endpoint : Nat) : Nat → Nat → List TxWrite → TxRun
  | 0, pos, log => if pos < len then ⟨none, log⟩ else ⟨some true, log⟩
  | fuel + 1, pos, log =>
    if pos < len then
      let tmp_buffer : List Byte := List.replicate USB_SEGMENT_SIZE 0
      let tmp_buffer := tmp_buffer.set 0 0x3F
      let tmp_buffer := memcpy tmp_buffer 1 (fun i => message (pos + i)) (USB_SEGMENT_SIZE - 1)
      match write_until_accepted hw usbd_dev endpoint tmp_buffer (fuel + 1) log with
      | (false, log1) => ⟨none, log1⟩
      | (true, log1) =>
        usb_tx_helper_loop hw usbd_dev message len endpoint fuel
          ((pos + (USB_SEGMENT_SIZE - 1)) % UINT32_MOD) log1
    else ⟨some true, log⟩

/-- `usb_tx_helper(message, len, endpoint)`: `pos` starts at 1. -/
def usb_tx_helper (hw : Nat → Nat) (usbd_dev : Option Nat) (message : Nat → Byte)
    (len endpoint : Nat) (fuel : Nat) : TxRun :=
  usb_tx_helper_loop hw usbd_dev message len endpoint fuel 1 []

/-- The loop of `usb_tx_helper_raw` from a given `pos`. -/
def usb_tx_helper_raw_loop (hw : Nat → Nat) (usbd_dev : Option Nat) (message : Nat → Byte)
    (len endpoint : Nat) : Nat → Nat → List TxWrite → TxRun
  | 0, pos, log => if pos < len then ⟨none, log⟩ else ⟨some true, log⟩
  | fuel + 1, pos, log =>
    if pos < len then
      let tmp_buffer : List Byte := List.replicate USB_SEGMENT_SIZE 0
      let tmp_buffer := memcpy tmp_buffer 0 (fun i => message (pos + i)) USB_SEGMENT_SIZE
      match write_until_accepted hw usbd_dev endpoint tmp_buffer (fuel + 1) log with
      | (false, log1) => ⟨none, log1⟩
      | (true, log1) =>
        usb_tx_helper_raw_loop hw usbd_dev message len endpoint fuel
          ((pos + USB_SEGMENT_SIZE) % UINT32_MOD) log1
    else ⟨some true, log⟩

/-- `usb_tx_helper_raw(message, len, endpoint)`: `pos` starts at 0. -/
def usb_tx_helper_raw (hw : Nat → Nat) (usbd_dev : Option Nat) (message : Nat → Byte)
    (len endpoint : Nat) (fuel : Nat) : TxRun :=
  usb_tx_helper_raw_loop hw usbd_dev message len endpoint fuel 0 []

/-- `usb_tx(message, len)`: the normal channel. -/
def usb_tx (hw : Nat → Nat) (usbd_dev : Option Nat) (message : Nat → Byte) (len fuel : Nat) :
    TxRun :=
  usb_tx_helper hw usbd_dev message len ENDPOINT_ADDRESS_IN fuel

/-- `usb_debug_tx(message, len)`: the debug-link channel (`DEBUG_LINK` builds). -/
def usb_debug_tx (hw : Nat → Nat) (usbd_dev : Option Nat) (message : Nat → Byte)
    (len fuel : Nat) : TxRun :=
  usb_tx_helper hw usbd_dev message len ENDPOINT_ADDRESS_DEBUG_IN fuel

/-- `usb_u2f_tx(message, len)`: the U2F channel (`HAVE_U2F` builds). -/
def usb_u2f_tx (hw : Nat → Nat) (usbd_dev : Option Nat) (message : Nat → Byte)
    (len fuel : Nat) : TxRun :=
  usb_tx_helper_raw hw usbd_dev message len ENDPOINT_ADDRESS_U2F_IN fuel

/-! ## Descriptor set -/

/-- The build switches `DEBUG_LINK` and `HAVE_U2F`. -/
structure Build where
  DEBUG_LINK : Bool
  HAVE_U2F : Bool
deriving DecidableEq, Repr

/-- The report descriptor of the normal and debug-link interfaces
(`static const uint8_t hid_report_descriptor[]`). -/
def hid_report_descriptor : List Byte :=
  [0x06, 0x00, 0xFF, 0x09, 0x01, 0xA1, 0x01, 0x09, 0x01, 0x75, 0x08, 0x95, 0x40, 0x26, 0xFF, 0x00,
   0x15, 0x00, 0x85, 0x01, 0x95, 0x01, 0x09, 0x01, 0x81, 0x02, 0x09, 0x01, 0x91, 0x02, 0x85, 0x02,
   0x95, 0x02, 0x09, 0x01, 0x81, 0x02, 0x09, 0x01, 0x91, 0x02, 0x85, 0x03, 0x95, 0x03, 0x09, 0x01,
   0x81, 0x02, 0x09, 0x01, 0x91, 0x02, 0x85, 0x04, 0x95, 0x04, 0x09, 0x01, 0x81, 0x02, 0x09, 0x01,
   0x91, 0x02, 0x85, 0x05, 0x95, 0x05, 0x09, 0x01, 0x81, 0x02, 0x09, 0x01, 0x91, 0x02, 0x85, 0x06,
   0x95, 0x06, 0x09, 0x01, 0x81, 0x02, 0x09, 0x01, 0x91, 0x02, 0x85, 0x07, 0x95, 0x07, 0x09, 0x01,
   0x81, 0x02, 0x09, 0x01, 0x91, 0x02, 0x85, 0x08, 0x95, 0x08, 0x09, 0x01, 0x81, 0x02, 0x09, 0x01,
   0x91, 0x02, 0x85, 0x09, 0x95, 0x09, 0x09, 0x01, 0x81, 0x02, 0x09, 0x01, 0x91, 0x02, 0x85, 0x0A,
   0x95, 0x0A, 0x09, 0x01, 0x81, 0x02, 0x09, 0x01, 0x91, 0x02, 0x85, 0x0B, 0x95, 0x0B, 0x09, 0x01,
   0x81, 0x02, 0x09, 0x01, 0x91, 0x02, 0x85, 0x0C, 0x95, 0x0C, 0x09, 0x01, 0x81, 0x02, 0x09, 0x01,
   0x91, 0x02, 0x85, 0x0D, 0x95, 0x0D, 0x09, 0x01, 0x81, 0x02, 0x09, 0x01, 0x91, 0x02, 0x85, 0x0E,
   0x95, 0x0E, 0x09, 0x01, 0x81, 0x02, 0x09, 0x01, 0x91, 0x02, 0x85, 0x0F, 0x95, 0x0F, 0x09, 0x01,
   0x81, 0x02, 0x09, 0x01, 0x91, 0x02, 0x85, 0x10, 0x95, 0x10, 0x09, 0x01, 0x81, 0x02, 0x09, 0x01,
   0x91, 0x02, 0x85, 0x11, 0x95, 0x11, 0x09, 0x01, 0x81, 0x02, 0x09, 0x01, 0x91, 0x02, 0x85, 0x12,
   0x95, 0x12, 0x09, 0x01, 0x81, 0x02, 0x09, 0x01, 0x91, 0x02, 0x85, 0x13, 0x95, 0x13, 0x09, 0x01,
   0x81, 0x02, 0x09, 0x01, 0x91, 0x02, 0x85, 0x14, 0x95, 0x14, 0x09, 0x01, 0x81, 0x02, 0x09, 0x01,
   0x91, 0x02, 0x85, 0x15, 0x95, 0x15, 0x09, 0x01, 0x81, 0x02, 0x09, 0x01, 0x91, 0x02, 0x85, 0x16,
   0x95, 0x16, 0x09, 0x01, 0x81, 0x02, 0x09, 0x01, 0x91, 0x02, 0x85, 0x17, 0x95, 0x17, 0x09, 0x01,
   0x81, 0x02, 0x09, 0x01, 0x91, 0x02, 0x85, 0x18, 0x95, 0x18, 0x09, 0x01, 0x81, 0x02, 0x09, 0x01,
   0x91, 0x02, 0x85, 0x19, 0x95, 0x19, 0x09, 0x01, 0x81, 0x02, 0x09, 0x01, 0x91, 0x02, 0x85, 0x1A,
   0x95, 0x1A, 0x09, 0x01, 0x81, 0x02, 0x09, 0x01, 0x91, 0x02, 0x85, 0x1B, 0x95, 0x1B, 0x09, 0x01,
   0x81, 0x02, 0x09, 0x01, 0x91, 0x02, 0x85, 0x1C, 0x95, 0x1C, 0x09, 0x01, 0x81, 0x02, 0x09, 0x01,
   0x91, 0x02, 0x85, 0x1D, 0x95, 0x1D, 0x09, 0x01, 0x81, 0x02, 0x09, 0x01, 0x91, 0x02, 0x85, 0x1E,
   0x95, 0x1E, 0x09, 0x01, 0x81, 0x02, 0x09, 0x01, 0x91, 0x02, 0x85, 0x1F, 0x95, 0x1F, 0x09, 0x01,
   0x81, 0x02, 0x09, 0x01, 0x91, 0x02, 0x85, 0x20, 0x95, 0x20, 0x09, 0x01, 0x81, 0x02, 0x09, 0x01,
   0x91, 0x02, 0x85, 0x21, 0x95, 0x21, 0x09, 0x01, 0x81, 0x02, 0x09, 0x01, 0x91, 0x02, 0x85, 0x22,
   0x95, 0x22, 0x09, 0x01, 0x81, 0x02, 0x09, 0x01, 0x91, 0x02, 0x85, 0x23, 0x95, 0x23, 0x09, 0x01,
   0x81, 0x02, 0x09, 0x01, 0x91, 0x02, 0x85, 0x24, 0x95, 0x24, 0x09, 0x01, 0x81, 0x02, 0x09, 0x01,
   0x91, 0x02, 0x85, 0x25, 0x95, 0x25, 0x09, 0x01, 0x81, 0x02, 0x09, 0x01, 0x91, 0x02, 0x85, 0x26,
   0x95, 0x26, 0x09, 0x01, 0x81, 0x02, 0x09, 0x01, 0x91, 0x02, 0x85, 0x27, 0x95, 0x27, 0x09, 0x01,
   0x81, 0x02, 0x09, 0x01, 0x91, 0x02, 0x85, 0x28, 0x95, 0x28, 0x09, 0x01, 0x81, 0x02, 0x09, 0x01,
   0x91, 0x02, 0x85, 0x29, 0x95, 0x29, 0x09, 0x01, 0x81, 0x02, 0x09, 0x01, 0x91, 0x02, 0x85, 0x2A,
   0x95, 0x2A, 0x09, 0x01, 0x81, 0x02, 0x09, 0x01, 0x91, 0x02, 0x85, 0x2B, 0x95, 0x2B, 0x09, 0x01,
   0x81, 0x02, 0x09, 0x01, 0x91, 0x02, 0x85, 0x2C, 0x95, 0x2C, 0x09, 0x01, 0x81, 0x02, 0x09, 0x01,
   0x91, 0x02, 0x85, 0x2D, 0x95, 0x2D, 0x09, 0x01, 0x81, 0x02, 0x09, 0x01, 0x91, 0x02, 0x85, 0x2E,
   0x95, 0x2E, 0x09, 0x01, 0x81, 0x02, 0x09, 0x01, 0x91, 0x02, 0x85, 0x2F, 0x95, 0x2F, 0x09, 0x01,
   0x81, 0x02, 0x09, 0x01, 0x91, 0x02, 0x85, 0x30, 0x95, 0x30, 0x09, 0x01, 0x81, 0x02, 0x09, 0x01,
   0x91, 0x02, 0x85, 0x31, 0x95, 0x31, 0x09, 0x01, 0x81, 0x02, 0x09, 0x01, 0x91, 0x02, 0x85, 0x32,
   0x95, 0x32, 0x09, 0x01, 0x81, 0x02, 0x09, 0x01, 0x91, 0x02, 0x85, 0x33, 0x95, 0x33, 0x09, 0x01,
   0x81, 0x02, 0x09, 0x01, 0x91, 0x02, 0x85, 0x34, 0x95, 0x34, 0x09, 0x01, 0x81, 0x02, 0x09, 0x01,
   0x91, 0x02, 0x85, 0x35, 0x95, 0x35, 0x09, 0x01, 0x81, 0x02, 0x09, 0x01, 0x91, 0x02, 0x85, 0x36,
   0x95, 0x36, 0x09, 0x01, 0x81, 0x02, 0x09, 0x01, 0x91, 0x02, 0x85, 0x37, 0x95, 0x37, 0x09, 0x01,
   0x81, 0x02, 0x09, 0x01, 0x91, 0x02, 0x85, 0x38, 0x95, 0x38, 0x09, 0x01, 0x81, 0x02, 0x09, 0x01,
   0x91, 0x02, 0x85, 0x39, 0x95, 0x39, 0x09, 0x01, 0x81, 0x02, 0x09, 0x01, 0x91, 0x02, 0x85, 0x3A,
   0x95, 0x3A, 0x09, 0x01, 0x81, 0x02, 0x09, 0x01, 0x91, 0x02, 0x85, 0x3B, 0x95, 0x3B, 0x09, 0x01,
   0x81, 0x02, 0x09, 0x01, 0x91, 0x02, 0x85, 0x3C, 0x95, 0x3C, 0x09, 0x01, 0x81, 0x02, 0x09, 0x01,
   0x91, 0x02, 0x85, 0x3D, 0x95, 0x3D, 0x09, 0x01, 0x81, 0x02, 0x09, 0x01, 0x91, 0x02, 0x85, 0x3E,
   0x95, 0x3E, 0x09, 0x01, 0x81, 0x02, 0x09, 0x01, 0x91, 0x02, 0x85, 0x3F, 0x95, 0x3F, 0x09, 0x01,
   0x81, 0x02, 0x09, 0x01, 0x91, 0x02, 0x85, 0x40, 0x95, 0x01, 0x09, 0x01, 0xB1, 0x02, 0x85, 0x41,
   0x95, 0x01, 0x09, 0x01, 0xB1, 0x02, 0x85, 0x42, 0x95, 0x06, 0x09, 0x01, 0xB1, 0x02, 0x85, 0x43,
   0x95, 0x01, 0x09, 0x01, 0xB1, 0x02, 0x85, 0x44, 0x95, 0x02, 0x09, 0x01, 0xB1, 0x02, 0x85, 0x45,
   0x95, 0x04, 0x09, 0x01, 0xB1, 0x02, 0x85, 0x46, 0x95, 0x02, 0x09, 0x01, 0xB1, 0x02, 0x85, 0x47,
   0x95, 0x02, 0x09, 0x01, 0xB1, 0x02, 0x85, 0x50, 0x95, 0x08, 0x09, 0x01, 0xB1, 0x02, 0x85, 0x51,
   0x95, 0x01, 0x09, 0x01, 0xB1, 0x02, 0x85, 0x52, 0x95, 0x01, 0x09, 0x01, 0xB1, 0x02, 0x85, 0x60,
   0x95, 0x0A, 0x09, 0x01, 0xB1, 0x02, 0x85, 0x61, 0x95, 0x3F, 0x09, 0x01, 0xB1, 0x02, 0x85, 0x62,
   0x95, 0x3F, 0x09, 0x01, 0xB1, 0x02, 0x85, 0x63, 0x95, 0x3F, 0x09, 0x01, 0xB1, 0x02, 0x85, 0x64,
   0x95, 0x3F, 0x09, 0x01, 0xB1, 0x02, 0x85, 0x65, 0x95, 0x3E, 0x09, 0x01, 0xB1, 0x02, 0x85, 0x66,
   0x95, 0x13, 0x09, 0x01, 0xB1, 0x02, 0xC0]

/-- The report descriptor of the U2F interface
(`static const uint8_t hid_report_descriptor_u2f[]`, `HAVE_U2F` builds). -/
def hid_report_descriptor_u2f : List Byte :=
  [0x06, 0xD0, 0xF1, 0x09, 0x01, 0xA1, 0x01, 0x09, 0x03, 0x15, 0x00, 0x26, 0xFF, 0x00, 0x75, 0x08,
   0x95, 0x40, 0x81, 0x08, 0x09, 0x04, 0x15, 0x00, 0x26, 0xFF, 0x00, 0x75, 0x08, 0x95, 0x40, 0x91,
   0x08, 0xC0]

/-- `sizeof` of a byte array. -/
def sizeof (a : List Byte) : Nat := a.length

/-- The `hid_report` part of a HID function descriptor together with the
`usb_hid_descriptor` fields the driver sets. -/
structure hid_function_descriptor where
  bLength : Nat
  bDescriptorType : Nat
  bcdHID : Nat
  bCountryCode : Nat
  bNumDescriptors : Nat
  bReportDescriptorType : Nat
  wDescriptorLength : Nat
deriving DecidableEq, Repr

/-- `hid_function`: the packed struct is 9 bytes long; `USB_DT_HID` is `0x21`
and `USB_DT_REPORT` is `0x22`. -/
def hid_function : hid_function_descriptor :=
  { bLength := 9, bDescriptorType := 0x21, bcdHID := 0x0111, bCountryCode := 0,
    bNumDescriptors := 1, bReportDescriptorType := 0x22,
    wDescriptorLength := sizeof hid_report_descriptor }

/-- `hid_function_u2f` (`HAVE_U2F` builds). -/
def hid_function_u2f : hid_function_descriptor :=
  { bLength := 9, bDescriptorType := 0x21, bcdHID := 0x0111, bCountryCode := 0,
    bNumDescriptors := 1, bReportDescriptorType := 0x22,
    wDescriptorLength := sizeof hid_report_descriptor_u2f }

/-- The fields of `struct usb_endpoint_descriptor` the driver sets
(`USB_ENDPOINT_ATTR_INTERRUPT` is `0x03`). -/
structure usb_endpoint_descriptor where
  bEndpointAddress : Nat
  bmAttributes : Nat
  wMaxPacketSize : Nat
  bInterval : Nat
deriving DecidableEq, Repr

/-- `hid_endpoints`. -/
def hid_endpoints : List usb_endpoint_descriptor :=
  [⟨ENDPOINT_ADDRESS_IN, 0x03, USB_SEGMENT_SIZE, 1⟩,
   ⟨ENDPOINT_ADDRESS_OUT, 0x03, USB_SEGMENT_SIZE, 1⟩]

/-- `hid_endpoints_debug` (`DEBUG_LINK` builds). -/
def hid_endpoints_debug : List usb_endpoint_descriptor :=
  [⟨ENDPOINT_ADDRESS_DEBUG_IN, 0x03, USB_SEGMENT_SIZE, 1⟩,
   ⟨ENDPOINT_ADDRESS_DEBUG_OUT, 0x03, USB_SEGMENT_SIZE, 1⟩]

/-- `hid_endpoints_u2f` (`HAVE_U2F` builds). -/
def hid_endpoints_u2f : List usb_endpoint_descriptor :=
  [⟨ENDPOINT_ADDRESS_U2F_IN, 0x03, USB_SEGMENT_SIZE, 1⟩,
   ⟨ENDPOINT_ADDRESS_U2F_OUT, 0x03, USB_SEGMENT_SIZE, 1⟩]

/-- The fields of `struct usb_interface_descriptor` the driver sets
(`USB_CLASS_HID` is 3); `extra` is the HID function descriptor pointed to. -/
structure usb_interface_descriptor where
  bInterfaceNumber : Nat
  bAlternateSetting : Nat
  bNumEndpoints : Nat
  bInterfaceClass : Nat
  bInterfaceSubClass : Nat
  bInterfaceProtocol : Nat
  iInterface : Nat
  endpoint : List usb_endpoint_descriptor
  extra : hid_function_descriptor
deriving DecidableEq, Repr

/-- `hid_iface`. -/
def hid_iface : List usb_interface_descriptor :=
  [{ bInterfaceNumber := 0, bAlternateSetting := 0, bNumEndpoints := 2, bInterfaceClass := 3,
     bInterfaceSubClass := 0, bInterfaceProtocol := 0, iInterface := 0,
     endpoint := hid_endpoints, extra := hid_function }]

/-- `hid_iface_debug` (`DEBUG_LINK` builds). -/
def hid_iface_debug : List usb_interface_descriptor :=
  [{ bInterfaceNumber := 1, bAlternateSetting := 0, bNumEndpoints := 2, bInterfaceClass := 3,
     bInterfaceSubClass := 0, bInterfaceProtocol := 0, iInterface := 0,
     endpoint := hid_endpoints_debug, extra := hid_function }]

/-- `hid_iface_u2f` (`HAVE_U2F` builds): interface 2 with `DEBUG_LINK`, else 1. -/
def hid_iface_u2f (b : Build) : List usb_interface_descriptor :=
  [{ bInterfaceNumber := if b.DEBUG_LINK then 2 else 1,
     bAlternateSetting := 0, bNumEndpoints := 2, bInterfaceClass := 3,
     bInterfaceSubClass := 0, bInterfaceProtocol := 0, iInterface := 0,
     endpoint := hid_endpoints_u2f, extra := hid_function_u2f }]

/-- `struct usb_interface`. -/
structure usb_interface where
  num_altsetting : Nat
  altsetting : List usb_interface_descriptor
deriving DecidableEq, Repr

/-- `ifaces`, with its `#if DEBUG_LINK && HAVE_U2F / #elif HAVE_U2F /
#elif DEBUG_LINK` ladder. -/
def ifaces (b : Build) : List usb_interface :=
  ⟨1, hid_iface⟩ ::
    (if b.DEBUG_LINK && b.HAVE_U2F then [⟨1, hid_iface_debug⟩, ⟨1, hid_iface_u2f b⟩]
     else if b.HAVE_U2F then [⟨1, hid_iface_u2f b⟩]
     else if b.DEBUG_LINK then [⟨1, hid_iface_debug⟩]
     else [])

/-- The fields of `struct usb_config_descriptor` the driver sets. -/
structure usb_config_descriptor where
  wTotalLength : Nat
  bNumInterfaces : Nat
  bConfigurationValue : Nat
  iConfiguration : Nat
  bmAttributes : Nat
  bMaxPower : Nat
  interface : List usb_interface
deriving DecidableEq, Repr

/-- `config`, with its `#if DEBUG_LINK && HAVE_U2F / #elif DEBUG_LINK /
#elif HAVE_U2F` ladder. -/
def config (b : Build) : usb_config_descriptor :=
  { wTotalLength := 0,
    bNumInterfaces :=
      if b.DEBUG_LINK && b.HAVE_U2F then 3
      else if b.DEBUG_LINK then 2
      else if b.HAVE_U2F then 2
      else 1,
    bConfigurationValue := 1, iConfiguration := 0, bmAttributes := 0x80, bMaxPower := 0x32,
    interface := ifaces b }

/-- The interface descriptors a build declares: entry 0 of every `altsetting` of
`ifaces` (each has `num_altsetting = 1`). -/
def declared_interfaces (b : Build) : List usb_interface_descriptor :=
  (ifaces b).flatMap fun i => i.altsetting.take i.num_altsetting

/-! ## Control-request handler -/

/-- Where the response pointer `*buf` of a control request points: at one of the
two report descriptors, or anywhere else (such as into the control buffer). -/
inductive BufPtr where
  | hid_report_descriptor
  | hid_report_descriptor_u2f
  | other (addr : Nat)
deriving DecidableEq, Repr

/-- The array a response pointer points at, when it is one of the two report
descriptors. -/
def BufPtr.pointee : BufPtr → Option (List Byte)
  | .hid_report_descriptor => some KeepKey.hid_report_descriptor
  | .hid_report_descriptor_u2f => some KeepKey.hid_report_descriptor_u2f
  | .other _ => none

/-- `struct usb_setup_data`. -/
structure usb_setup_data where
  bmRequestType : Nat
  bRequest : Nat
  wValue : Nat
  wIndex : Nat
  wLength : Nat
deriving DecidableEq, Repr

/-- The return value of `hid_control_request` with `*buf` and `*len` as it
leaves them. -/
structure ControlResult where
  ret : Nat
  buf : BufPtr
  len : Nat
deriving DecidableEq, Repr

/-- `hid_control_request(dev, req, buf, len, complete)`; `buf` and `len` are the
values of `*buf` and `*len` on entry. -/
def hid_control_request (b : Build) (req : usb_setup_data) (buf : BufPtr) (len : Nat) :
    ControlResult :=
  if req.bmRequestType ≠ ENDPOINT_ADDRESS_IN ∨ req.bRequest ≠ USB_REQ_GET_DESCRIPTOR ∨
      req.wValue ≠ 0x2200 then
    ⟨0, buf, len⟩
  else if b.HAVE_U2F = false then
    ⟨1, .hid_report_descriptor, sizeof hid_report_descriptor⟩
  else if (if b.HAVE_U2F && b.DEBUG_LINK then decide (req.wIndex < 2)
           else decide (req.wIndex = 0)) then
    ⟨1, .hid_report_descriptor, sizeof hid_report_descriptor⟩
  else
    ⟨1, .hid_report_descriptor_u2f, sizeof hid_report_descriptor_u2f⟩

/-! ## Receive path and configuration callback -/

/-- The three logical channels. -/
inductive Channel where
  | normal
  | debug_link
  | u2f
deriving DecidableEq, Repr

/-- Modelled from the spec: `UsbMessage` is declared in the board header, which
is not among the sources; a length field and a byte buffer of the capacity of
one application message. -/
structure UsbMessage where
  len : Nat
  message : List Byte
deriving DecidableEq, Repr

/-- The process-wide state of the driver: the device handle (`none` is `NULL`),
the configured flag and the three callback slots (`none` is `NULL`, `some f`
the function pointer `f`). -/
structure Driver where
  usbd_dev : Option Nat
  usb_configured : Bool
  user_rx_callback : Option Nat
  user_debug_rx_callback : Option Nat
  u2f_rx_callback : Option Nat
deriving DecidableEq, Repr

/-- One call of an application callback: the slot it was called through, the
function pointer found there and the message passed. -/
structure RxCall where
  slot : Channel
  callback : Nat
  m : UsbMessage
deriving DecidableEq, Repr

/-- What a receive handler did: the driver state as its own statements leave
it, the endpoints it read with `usbd_ep_read_packet`, and the application
callbacks it called, oldest first. -/
structure RxOutcome where
  driver : Driver
  reads : List Nat
  calls : List RxCall
deriving DecidableEq, Repr

/-- The library call `usbd_ep_read_packet(dev, addr, buf, len)`: at most `len`
bytes of the packet pending on endpoint `addr` (`fifo addr`) are copied to the
start of `buf`; the `uint16_t` result is their number. -/
def usbd_ep_read_packet (fifo : Nat → List Byte) (addr : Nat) (buf : List Byte) (len : Nat) :
    Nat × List Byte :=
  let data := (fifo addr).take len
  (data.length % 65536, data ++ buf.drop data.length)

/-- `hid_rx_callback(dev, ep)`; `m` is the uninitialised local `UsbMessage m`. -/
def hid_rx_callback (fifo : Nat → List Byte) (m : UsbMessage) (d : Driver) (_ep : Nat) :
    RxOutcome :=
  let r := usbd_ep_read_packet fifo ENDPOINT_ADDRESS_OUT m.message USB_SEGMENT_SIZE
  let rx := r.1
  let m : UsbMessage := { m with message := r.2 }
  if rx ≠ 0 then
    match d.user_rx_callback with
    | some f =>
      let m : UsbMessage := { m with len := rx }
      ⟨d, [ENDPOINT_ADDRESS_OUT], [⟨.normal, f, m⟩]⟩
    | none => ⟨d, [ENDPOINT_ADDRESS_OUT], []⟩
  else ⟨d, [ENDPOINT_ADDRESS_OUT], []⟩

/-- `hid_debug_rx_callback(dev, ep)` (`DEBUG_LINK` builds). -/
def hid_debug_rx_callback (fifo : Nat → List Byte) (m : UsbMessage) (d : Driver) (_ep : Nat) :
    RxOutcome :=
  let r := usbd_ep_read_packet fifo ENDPOINT_ADDRESS_DEBUG_OUT m.message USB_SEGMENT_SIZE
  let rx := r.1
  let m : UsbMessage := { m with message := r.2 }
  if rx ≠ 0 then
    match d.user_debug_rx_callback with
    | some f =>
      let m : UsbMessage := { m with len := rx }
      ⟨d, [ENDPOINT_ADDRESS_DEBUG_OUT], [⟨.debug_link, f, m⟩]⟩
    | none => ⟨d, [ENDPOINT_ADDRESS_DEBUG_OUT], []⟩
  else ⟨d, [ENDPOINT_ADDRESS_DEBUG_OUT], []⟩

/-- `hid_u2f_rx_callback(dev, ep)` (`HAVE_U2F` builds). -/
def hid_u2f_rx_callback (fifo : Nat → List Byte) (m : UsbMessage) (d : Driver) (_ep : Nat) :
    RxOutcome :=
  let r := usbd_ep_read_packet fifo ENDPOINT_ADDRESS_U2F_OUT m.message USB_SEGMENT_SIZE
  let rx := r.1
  let m : UsbMessage := { m with message := r.2 }
  if rx ≠ 0 then
    match d.u2f_rx_callback with
    | some f =>
      let m : UsbMessage := { m with len := rx }
      ⟨d, [ENDPOINT_ADDRESS_U2F_OUT], [⟨.u2f, f, m⟩]⟩
    | none => ⟨d, [ENDPOINT_ADDRESS_U2F_OUT], []⟩
  else ⟨d, [ENDPOINT_ADDRESS_U2F_OUT], []⟩

/-- The receive handlers, as the function pointers handed to `usbd_ep_setup`. -/
inductive RxHandler where
  | hid_rx_callback
  | hid_debug_rx_callback
  | hid_u2f_rx_callback
deriving DecidableEq, Repr

/-- Calling a receive handler through its function pointer. -/
def RxHandler.run (h : RxHandler) (fifo : Nat → List Byte) (m : UsbMessage) (d : Driver)
    (ep : Nat) : RxOutcome :=
  match h with
  | .hid_rx_callback => KeepKey.hid_rx_callback fifo m d ep
  | .hid_debug_rx_callback => KeepKey.hid_debug_rx_callback fifo m d ep
  | .hid_u2f_rx_callback => KeepKey.hid_u2f_rx_callback fifo m d ep

/-- One call `usbd_ep_setup(dev, addr, type, max_size, callback)`; `callback`
is `none` for the argument `0`. -/
structure EpSetup where
  addr : Nat
  type : Nat
  max_size : Nat
  callback : Option RxHandler
deriving DecidableEq, Repr

/-- What `hid_set_config_callback` did: the driver state it leaves, its calls
of `usbd_ep_setup` in order, and the `(type, type_mask)` pairs under which it
registered `hid_control_request`. -/
structure ConfigOutcome where
  driver : Driver
  ep_setups : List EpSetup
  control_callbacks : List (Nat × Nat)
deriving DecidableEq, Repr

/-- `hid_set_config_callback(dev, wValue)`. `USB_ENDPOINT_ATTR_INTERRUPT` is
`0x03`; `USB_REQ_TYPE_STANDARD | USB_REQ_TYPE_INTERFACE` is `0x01` and
`USB_REQ_TYPE_TYPE | USB_REQ_TYPE_RECIPIENT` is `0x7F`. -/
def hid_set_config_callback (b : Build) (d : Driver) (_wValue : Nat) : ConfigOutcome :=
  let s : List EpSetup :=
    [⟨ENDPOINT_ADDRESS_IN, 0x03, USB_SEGMENT_SIZE, none⟩,
     ⟨ENDPOINT_ADDRESS_OUT, 0x03, USB_SEGMENT_SIZE, some .hid_rx_callback⟩]
  let s := if b.DEBUG_LINK then
      s ++ [⟨ENDPOINT_ADDRESS_DEBUG_IN, 0x03, USB_SEGMENT_SIZE, none⟩,
            ⟨ENDPOINT_ADDRESS_DEBUG_OUT, 0x03, USB_SEGMENT_SIZE, some .hid_debug_rx_callback⟩]
    else s
  let s := if b.HAVE_U2F then
      s ++ [⟨ENDPOINT_ADDRESS_U2F_IN, 0x03, USB_SEGMENT_SIZE, none⟩,
            ⟨ENDPOINT_ADDRESS_U2F_OUT, 0x03, USB_SEGMENT_SIZE, some .hid_u2f_rx_callback⟩]
    else s
  { driver := { d with usb_configured := true },
    ep_setups := s,
    control_callbacks := [(0x01, 0x7F)] }

/-- The handler the library calls when a packet arrives on endpoint `addr`: the
callback of the latest `usbd_ep_setup` of that address. -/
def bound_handler (setups : List EpSetup) (addr : Nat) : Option RxHandler :=
  (setups.reverse.find? fun s => s.addr = addr).bind EpSetup.callback

/-- The OUT endpoint of a channel. -/
def Channel.out_endpoint : Channel → Nat
  | .normal => ENDPOINT_ADDRESS_OUT
  | .debug_link => ENDPOINT_ADDRESS_DEBUG_OUT
  | .u2f => ENDPOINT_ADDRESS_U2F_OUT

/-- The callback slot of a channel: `user_rx_callback`,
`user_debug_rx_callback` or `u2f_rx_callback`. -/
def Channel.slot (d : Driver) : Channel → Option Nat
  | .normal => d.user_rx_callback
  | .debug_link => d.user_debug_rx_callback
  | .u2f => d.u2f_rx_callback

/-- The receive handler of a channel. -/
def Channel.handler : Channel → RxHandler
  | .normal => .hid_rx_callback
  | .debug_link => .hid_debug_rx_callback
  | .u2f => .hid_u2f_rx_callback

/-- Whether a channel is compiled into a build. -/
def Channel.present (b : Build) : Channel → Bool
  | .normal => true
  | .debug_link => b.DEBUG_LINK
  | .u2f => b.HAVE_U2F

/-- A packet arrives on endpoint `addr` of a configured device: the library
calls the handler bound to `addr`, if there is one. -/
def packet_arrives (b : Build) (fifo : Nat → List Byte) (m : UsbMessage) (d : Driver)
    (addr : Nat) : RxOutcome :=
  match bound_handler (hid_set_config_callback b d 1).ep_setups addr with
  | some h => h.run fifo m d addr
  | none => ⟨d, [], []⟩

/-- `usb_set_rx_callback(callback)`. -/
def usb_set_rx_callback (d : Driver) (callback : Option Nat) : Driver :=
  { d with user_rx_callback := callback }

/-- `usb_set_debug_rx_callback(callback)` (`DEBUG_LINK` builds). -/
def usb_set_debug_rx_callback (d : Driver) (callback : Option Nat) : Driver :=
  { d with user_debug_rx_callback := callback }

/-- `usb_set_u2f_rx_callback(callback)` (`HAVE_U2F` builds). -/
def usb_set_u2f_rx_callback (d : Driver) (callback : Option Nat) : Driver :=
  { d with u2f_rx_callback := callback }

/-! ## Helpers for stating the claims -/

/-- The packets of a log, in the order written. -/
def packets (log : List TxWrite) : List (List Byte) := log.map TxWrite.data

/-- The `n` source bytes `message lo, ..., message (lo + n - 1)`. -/
def slice (message : Nat → Byte) (lo n : Nat) : List Byte :=
  (List.range n).map fun i => message (lo + i)

/-- A test buffer: byte `i` is `i % 251` below `len` and `0xEE` from `len` on. -/
def sample_message (len : Nat) : Nat → Byte := fun i =>
  if i < len then Fin.ofNat (i % 251) else 0xEE

/-- The offset `pos` of `usb_tx_helper` at the start of iteration `k`. -/
def helper_pos (k : Nat) : Nat := (1 + 63 * k) % UINT32_MOD

/-- The offset `pos` of `usb_tx_helper_raw` at the start of iteration `k`. -/
def raw_pos (k : Nat) : Nat := (64 * k) % UINT32_MOD

/-- The least `n` with `a ≤ n * b`, for `b > 0`: `ceil(a / b)`. -/
def ceil_div (a b : Nat) : Nat := (a + (b - 1)) / b

/-- The write `usb_tx_helper` makes in iteration `k` when every earlier write
was accepted at once. -/
def helper_write (hw : Nat → Nat) (usbd_dev : Option Nat) (message : Nat → Byte) (endpoint : Nat)
    (k : Nat) : TxWrite :=
  ⟨usbd_dev, endpoint, 0x3F :: slice message (helper_pos k) 63, hw k⟩

/-- The write `usb_tx_helper_raw` makes in iteration `k` when every earlier
write was accepted at once. -/
def raw_write (hw : Nat → Nat) (usbd_dev : Option Nat) (message : Nat → Byte) (endpoint : Nat)
    (k : Nat) : TxWrite :=
  ⟨usbd_dev, endpoint, slice message (raw_pos k) 64, hw k⟩

/-- The bytes 1..63 of the packets of a log, concatenated in the order written. -/
def payload (log : List TxWrite) : List Byte := ((packets log).map (List.drop 1)).flatten

/-- A test buffer whose byte 0 is `0xAA` and whose other bytes are all zero. -/
def byte0_marked : Nat → Byte := fun i => if i = 0 then 0xAA else 0

/-- A driver with a callback registered on the debug-link channel only. -/
def debug_only_driver : Driver :=
  usb_set_debug_rx_callback ⟨some 1, true, none, none, none⟩ (some 7)

/-- A 10-byte packet pending on the U2F OUT endpoint, and nothing elsewhere. -/
def u2f_packet_fifo : Nat → List Byte := fun addr =>
  if addr = ENDPOINT_ADDRESS_U2F_OUT then List.replicate 10 1 else []

/-- Hardware that accepts every packet at once: each call returns the 64 bytes
written. -/
def hw_ready : Nat → Nat := fun _ => 64

/-! ## Transmission under back-pressure -/

/-- The number of writes the hardware accepted among the first `n` calls of a
transmission. -/
def acc_count (hw : Nat → Nat) : Nat → Nat
  | 0 => 0
  | n + 1 => acc_count hw n + (if hw n = 0 then 0 else 1)

/-- The writes of a log that the hardware accepted, in the order written. -/
def accepted (log : List TxWrite) : List TxWrite := log.filter fun w => decide (w.result ≠ 0)

/-- The common shape of the loops of `usb_tx_helper` and `usb_tx_helper_raw`,
used to reason about both at once: the packet built at offset `pos` is
`pkt pos`, and `pos` advances by `step` in `uint32_t` arithmetic. -/
def chunk_loop (hw : Nat → Nat) (usbd_dev : Option Nat) (pkt : Nat → List Byte) (step : Nat)
    (len endpoint : Nat) : Nat → Nat → List TxWrite → TxRun
  | 0, pos, log => if pos < len then ⟨none, log⟩ else ⟨some true, log⟩
  | fuel + 1, pos, log =>
    if pos < len then
      match write_until_accepted hw usbd_dev endpoint (pkt pos) (fuel + 1) log with
      | (false, log1) => ⟨none, log1⟩
      | (true, log1) =>
        chunk_loop hw usbd_dev pkt step len endpoint fuel ((pos + step) % UINT32_MOD) log1
    else ⟨some true, log⟩

/-- The offset of iteration `k` of a loop that starts at `start` and advances by
`step`. -/
def chunk_pos (start step k : Nat) : Nat := (start + step * k) % UINT32_MOD

/-- The `n`-th call of `usbd_ep_write_packet` of a transmission: it carries the
packet of the iteration whose number is the number of writes accepted so far,
and returns `hw n`. -/
def chunk_attempt (hw : Nat → Nat) (usbd_dev : Option Nat) (pkt : Nat → List Byte)
    (start step endpoint n : Nat) : TxWrite :=
  ⟨usbd_dev, endpoint, (pkt (chunk_pos start step (acc_count hw n))).take USB_SEGMENT_SIZE, hw n⟩

/-- The packet `usb_tx_helper` builds at offset `pos`. -/
def helper_packet (message : Nat → Byte) (pos : Nat) : List Byte := 0x3F :: slice message pos 63

/-- The packet `usb_tx_helper_raw` builds at offset `pos`. -/
def raw_packet (message : Nat → Byte) (pos : Nat) : List Byte := slice message pos 64

/-- Hardware that rejects every write once before it accepts it. -/
def hw_busy_once : Nat → Nat := fun n => if n % 2 = 0 then 0 else 64

/-- What is asked of a finished transmission `r` made under back-pressure, against
the transmission `ideal` made when no write is rejected, `pkt k` being the packet
of iteration `k` and `c` the number of iterations: both return `true`; the
packets accepted are the packets of `ideal`, which are `pkt 0, ..., pkt (c - 1)`;
the `n`-th write carries the packet whose number is the number of writes
accepted before it; and every rejected write is followed by a write of the same
64-byte packet to the same endpoint. -/
def ordered_under_back_pressure (hw : Nat → Nat) (usbd_dev : Option Nat) (endpoint : Nat)
    (pkt : Nat → List Byte) (c : Nat) (r ideal : TxRun) : Prop :=
  r.ret = some true ∧ ideal.ret = some true ∧
  packets (accepted r.log) = packets ideal.log ∧
  packets ideal.log = (List.range c).map pkt ∧
  (∀ (n : Nat) (w : TxWrite), r.log[n]? = some w →
    w = (⟨usbd_dev, endpoint, pkt (acc_count hw n), hw n⟩ : TxWrite)) ∧
  (∀ (n : Nat) (w : TxWrite), r.log[n]? = some w → w.result = 0 →
    ∃ w2, r.log[n + 1]? = some w2 ∧ w2.data = w.data ∧ w2.endpoint = w.endpoint ∧
      w.data.length = 64)

/-- The discipline of a transmission `r` made with `fuel` under arbitrary
hardware responses, `pkt k` being the packet of iteration `k` and `ideal f` the
transmission made with fuel `f` when no write is rejected: the `n`-th write is
to `endpoint`, is 64 bytes long and carries the packet whose number is the number
of writes accepted before it; a write that follows a rejected write carries the
same packet to the same endpoint, and it is there as soon as the function has
returned or the fuel allows two more calls; the packets accepted so far are the
first packets of `ideal`, and all of them once both have returned; the function
does not return `false`. -/
def written_in_order (hw : Nat → Nat) (usbd_dev : Option Nat) (endpoint : Nat)
    (pkt : Nat → List Byte) (fuel : Nat) (r : TxRun) (ideal : Nat → TxRun) : Prop :=
  (∀ (n : Nat) (w : TxWrite), r.log[n]? = some w →
    w = (⟨usbd_dev, endpoint, pkt (acc_count hw n), hw n⟩ : TxWrite) ∧ w.data.length = 64) ∧
  (∀ (n : Nat) (w w2 : TxWrite), r.log[n]? = some w → r.log[n + 1]? = some w2 →
    w.result = 0 → w2.data = w.data ∧ w2.endpoint = w.endpoint) ∧
  (∀ (n : Nat) (w : TxWrite), r.log[n]? = some w → w.result = 0 →
    (r.ret = some true ∨ n + 2 ≤ fuel) → ∃ w2, r.log[n + 1]? = some w2) ∧
  (∀ f, (accepted r.log).length ≤ f →
    (packets (ideal f).log).take (accepted r.log).length = packets (accepted r.log)) ∧
  (r.ret = some true → ∀ f, (ideal f).ret = some true →
    packets (ideal f).log = packets (accepted r.log)) ∧
  r.ret ≠ some false

/-! ## Initialisation -/

/-- An entry of `usb_strings`: a string literal, or the static buffer
`serial_number` of `usb_init`. -/
inductive UsbString where
  | literal (s : String)
  | serial_number
deriving DecidableEq, Repr

/-- Modelled from the spec: `NUM_USB_STRINGS` is declared in the board header,
which is not among the sources; `usb_strings` has three entries, the last of
which is the serial number. -/
def NUM_USB_STRINGS : Nat := 3

/-- The hardware and library operations of `usb_init`. -/
inductive HwOp where
  | gpio_mode_setup
  | gpio_set_af
  | desig_get_unique_id_as_string
  | usbd_init
  | usbd_register_set_config_callback (dev : Nat)
deriving DecidableEq, Repr

/-- The state `usb_init` works on: the driver variables, the array
`usb_strings` and the content of the buffer `serial_number`. -/
structure UsbGlobals where
  driver : Driver
  usb_strings : List UsbString
  serial_number : String
deriving DecidableEq, Repr

/-- The state before any call: no handle, not configured, no callback, the three
string literals. -/
def power_on : UsbGlobals :=
  { driver := ⟨none, false, none, none, none⟩,
    usb_strings := [.literal "KeepKey, LLC.", .literal "KeepKey", .literal ""],
    serial_number := "" }

/-- What a call of `usb_init` did: its return value, the state it leaves and the
hardware and library operations it performed, in order. -/
structure InitOutcome where
  ret : Bool
  state : UsbGlobals
  ops : List HwOp
deriving DecidableEq, Repr

/-- `usb_init()`. `uid` is the string `desig_get_unique_id_as_string` writes and
`usbd_init_result` the handle `usbd_init` returns (`none` is `NULL`) if they are
called. -/
def usb_init (uid : String) (usbd_init_result : Option Nat) (s : UsbGlobals) : InitOutcome :=
  if s.driver.usbd_dev = none then
    let ops : List HwOp := [.gpio_mode_setup, .gpio_set_af, .desig_get_unique_id_as_string]
    let s1 : UsbGlobals :=
      { s with serial_number := uid,
               usb_strings := s.usb_strings.set (NUM_USB_STRINGS - 1) .serial_number }
    let s2 : UsbGlobals := { s1 with driver := { s1.driver with usbd_dev := usbd_init_result } }
    match usbd_init_result with
    | some dev => ⟨true, s2, ops ++ [.usbd_init, .usbd_register_set_config_callback dev]⟩
    | none => ⟨false, s2, ops ++ [.usbd_init]⟩
  else ⟨true, s, []⟩

/-- `get_usb_init_stat()`. -/
def get_usb_init_stat (s : UsbGlobals) : Option Nat := s.driver.usbd_dev

/-- Whether a list of operations registers the set-configuration callback. -/
def registers_set_config (ops : List HwOp) : Bool :=
  ops.any fun o =>
    match o with
    | .usbd_register_set_config_callback _ => true
    | _ => false

/-- A SET_CONFIGURATION request as the library handles it: it calls the
set-configuration callback if one was registered by the operations `ops`
performed so far, and does nothing of the driver otherwise. -/
def usbd_set_configuration (b : Build) (ops : List HwOp) (d : Driver) (wValue : Nat) :
    ConfigOutcome :=
  if registers_set_config ops then hid_set_config_callback b d wValue else ⟨d, [], []⟩

end KeepKey

namespace KeepKey

/-! ## The transmit loops under hardware that accepts every packet -/

theorem write_until_accepted_ready (hw : Nat → Nat) (hacc : ∀ k, hw k ≠ 0) (dev : Option Nat)
    (ep : Nat) (buf : List Byte) (fuel : Nat) (log : List TxWrite) :
    write_until_accepted hw dev ep buf (fuel + 1) log
      = (true, log ++ [⟨dev, ep, buf.take USB_SEGMENT_SIZE, hw log.length⟩]) := by
  simp [write_until_accepted, hacc]

theorem helper_tmp_buffer (message : Nat → Byte) (pos : Nat) :
    (memcpy ((List.replicate USB_SEGMENT_SIZE 0).set 0 0x3F) 1 (fun i => message (pos + i))
        (USB_SEGMENT_SIZE - 1)).take USB_SEGMENT_SIZE
      = 0x3F :: slice message pos 63 := by
  rfl

theorem raw_tmp_buffer (message : Nat → Byte) (pos : Nat) :
    (memcpy (List.replicate USB_SEGMENT_SIZE 0) 0 (fun i => message (pos + i))
        USB_SEGMENT_SIZE).take USB_SEGMENT_SIZE
      = slice message pos 64 := by
  rfl

theorem helper_pos_succ (k : Nat) :
    (helper_pos k + (USB_SEGMENT_SIZE - 1)) % UINT32_MOD = helper_pos (k + 1) := by
  simp only [helper_pos, USB_SEGMENT_SIZE, UINT32_MOD]
  omega

theorem raw_pos_succ (k : Nat) :
    (raw_pos k + USB_SEGMENT_SIZE) % UINT32_MOD = raw_pos (k + 1) := by
  simp only [raw_pos, USB_SEGMENT_SIZE, UINT32_MOD]
  omega

theorem range_succ_map_shift {α : Type} (f : Nat → α) (m : Nat) :
    (List.range (m + 1)).map f = f 0 :: (List.range m).map (fun i => f (i + 1)) := by
  rw [List.range_succ_eq_map, List.map_cons, List.map_map]
  rfl

/-- Under accepting hardware, `fuel` iterations of the loop of `usb_tx_helper`
entered in iteration `j` with `j` writes logged make the writes of iterations
`j, ..., j + m - 1` for some `m ≤ fuel`: either the fuel is used up with the
loop condition still true, or the loop is left and the function returns
`true`. -/
theorem usb_tx_helper_loop_ready (hw : Nat → Nat) (hacc : ∀ k, hw k ≠ 0) (dev : Option Nat)
    (message : Nat → Byte) (len ep : Nat) :
    ∀ (fuel j : Nat) (log : List TxWrite), log.length = j →
      ∃ m, m ≤ fuel ∧ (∀ i, i < m → helper_pos (j + i) < len) ∧
        (usb_tx_helper_loop hw dev message len ep fuel (helper_pos j) log).log
          = log ++ (List.range m).map (fun i => helper_write hw dev message ep (j + i)) ∧
        ((m = fuel ∧ helper_pos (j + fuel) < len ∧
            (usb_tx_helper_loop hw dev message len ep fuel (helper_pos j) log).ret = none) ∨
         (¬ helper_pos (j + m) < len ∧
            (usb_tx_helper_loop hw dev message len ep fuel (helper_pos j) log).ret
              = some true)) := by
  intro fuel
  induction fuel with
  | zero =>
    intro j log _
    refine ⟨0, le_refl _, fun i hi => absurd hi (Nat.not_lt_zero i), ?_, ?_⟩
    · by_cases h : helper_pos j < len <;> simp [usb_tx_helper_loop, h]
    · by_cases h : helper_pos j < len
      · left; simp [usb_tx_helper_loop, h]
      · right; simp [usb_tx_helper_loop, h]
  | succ fuel ih =>
    intro j log hlog
    by_cases h : helper_pos j < len
    · have hstep : usb_tx_helper_loop hw dev message len ep (fuel + 1) (helper_pos j) log
          = usb_tx_helper_loop hw dev message len ep fuel (helper_pos (j + 1))
              (log ++ [helper_write hw dev message ep j]) := by
        rw [usb_tx_helper_loop, if_pos h]
        simp only [write_until_accepted_ready hw hacc, helper_tmp_buffer, helper_pos_succ,
          helper_write, hlog]
      obtain ⟨m, hm, hpos, hlogm, hret⟩ :=
        ih (j + 1) (log ++ [helper_write hw dev message ep j]) (by simp [hlog])
      refine ⟨m + 1, Nat.succ_le_succ hm, ?_, ?_, ?_⟩
      · intro i hi
        cases i with
        | zero => simpa using h
        | succ i =>
          have := hpos i (Nat.lt_of_succ_lt_succ hi)
          simpa [Nat.add_assoc, Nat.add_comm 1 i] using this
      · rw [hstep, hlogm, range_succ_map_shift, List.append_assoc]
        simp [Nat.add_assoc, Nat.add_comm 1]
      · rw [hstep]
        rcases hret with ⟨h1, h2, h3⟩ | ⟨h2, h3⟩
        · left
          exact ⟨by omega, by simpa [Nat.add_assoc, Nat.add_comm 1 fuel] using h2, h3⟩
        · right
          exact ⟨by simpa [Nat.add_assoc, Nat.add_comm 1 m] using h2, h3⟩
    · refine ⟨0, Nat.zero_le _, fun i hi => absurd hi (Nat.not_lt_zero i), ?_, ?_⟩
      · simp [usb_tx_helper_loop, h]
      · right; simp [usb_tx_helper_loop, h]

/-- Under accepting hardware, `fuel` iterations of the loop of `usb_tx_helper_raw`
entered in iteration `j` with `j` writes logged make the writes of iterations
`j, ..., j + m - 1` for some `m ≤ fuel`: either the fuel is used up with the
loop condition still true, or the loop is left and the function returns
`true`. -/
theorem usb_tx_helper_raw_loop_ready (hw : Nat → Nat) (hacc : ∀ k, hw k ≠ 0) (dev : Option Nat)
    (message : Nat → Byte) (len ep : Nat) :
    ∀ (fuel j : Nat) (log : List TxWrite), log.length = j →
      ∃ m, m ≤ fuel ∧ (∀ i, i < m → raw_pos (j + i) < len) ∧
        (usb_tx_helper_raw_loop hw dev message len ep fuel (raw_pos j) log).log
          = log ++ (List.range m).map (fun i => raw_write hw dev message ep (j + i)) ∧
        ((m = fuel ∧ raw_pos (j + fuel) < len ∧
            (usb_tx_helper_raw_loop hw dev message len ep fuel (raw_pos j) log).ret = none) ∨
         (¬ raw_pos (j + m) < len ∧
            (usb_tx_helper_raw_loop hw dev message len ep fuel (raw_pos j) log).ret
              = some true)) := by
  intro fuel
  induction fuel with
  | zero =>
    intro j log _
    refine ⟨0, le_refl _, fun i hi => absurd hi (Nat.not_lt_zero i), ?_, ?_⟩
    · by_cases h : raw_pos j < len <;> simp [usb_tx_helper_raw_loop, h]
    · by_cases h : raw_pos j < len
      · left; simp [usb_tx_helper_raw_loop, h]
      · right; simp [usb_tx_helper_raw_loop, h]
  | succ fuel ih =>
    intro j log hlog
    by_cases h : raw_pos j < len
    · have hstep : usb_tx_helper_raw_loop hw dev message len ep (fuel + 1) (raw_pos j) log
          = usb_tx_helper_raw_loop hw dev message len ep fuel (raw_pos (j + 1))
              (log ++ [raw_write hw dev message ep j]) := by
        rw [usb_tx_helper_raw_loop, if_pos h]
        simp only [write_until_accepted_ready hw hacc, raw_tmp_buffer, raw_pos_succ,
          raw_write, hlog]
      obtain ⟨m, hm, hpos, hlogm, hret⟩ :=
        ih (j + 1) (log ++ [raw_write hw dev message ep j]) (by simp [hlog])
      refine ⟨m + 1, Nat.succ_le_succ hm, ?_, ?_, ?_⟩
      · intro i hi
        cases i with
        | zero => simpa using h
        | succ i =>
          have := hpos i (Nat.lt_of_succ_lt_succ hi)
          simpa [Nat.add_assoc, Nat.add_comm 1 i] using this
      · rw [hstep, hlogm, range_succ_map_shift, List.append_assoc]
        simp [Nat.add_assoc, Nat.add_comm 1]
      · rw [hstep]
        rcases hret with ⟨h1, h2, h3⟩ | ⟨h2, h3⟩
        · left
          exact ⟨by omega, by simpa [Nat.add_assoc, Nat.add_comm 1 fuel] using h2, h3⟩
        · right
          exact ⟨by simpa [Nat.add_assoc, Nat.add_comm 1 m] using h2, h3⟩
    · refine ⟨0, Nat.zero_le _, fun i hi => absurd hi (Nat.not_lt_zero i), ?_, ?_⟩
      · simp [usb_tx_helper_raw_loop, h]
      · right; simp [usb_tx_helper_raw_loop, h]

/-- The run of `usb_tx_helper` under accepting hardware, for any fuel. -/
theorem usb_tx_helper_ready (hw : Nat → Nat) (hacc : ∀ k, hw k ≠ 0) (dev : Option Nat)
    (message : Nat → Byte) (len ep fuel : Nat) :
    ∃ m, m ≤ fuel ∧ (∀ i, i < m → helper_pos i < len) ∧
      (usb_tx_helper hw dev message len ep fuel).log
        = (List.range m).map (helper_write hw dev message ep) ∧
      ((m = fuel ∧ helper_pos fuel < len ∧
          (usb_tx_helper hw dev message len ep fuel).ret = none) ∨
       (¬ helper_pos m < len ∧ (usb_tx_helper hw dev message len ep fuel).ret = some true)) := by
  have h := usb_tx_helper_loop_ready hw hacc dev message len ep fuel 0 [] rfl
  simpa [usb_tx_helper, show helper_pos 0 = 1 from rfl] using h

/-- The run of `usb_tx_helper_raw` under accepting hardware, for any fuel. -/
theorem usb_tx_helper_raw_ready (hw : Nat → Nat) (hacc : ∀ k, hw k ≠ 0) (dev : Option Nat)
    (message : Nat → Byte) (len ep fuel : Nat) :
    ∃ m, m ≤ fuel ∧ (∀ i, i < m → raw_pos i < len) ∧
      (usb_tx_helper_raw hw dev message len ep fuel).log
        = (List.range m).map (raw_write hw dev message ep) ∧
      ((m = fuel ∧ raw_pos fuel < len ∧
          (usb_tx_helper_raw hw dev message len ep fuel).ret = none) ∨
       (¬ raw_pos m < len ∧ (usb_tx_helper_raw hw dev message len ep fuel).ret = some true)) := by
  have h := usb_tx_helper_raw_loop_ready hw hacc dev message len ep fuel 0 [] rfl
  simpa [usb_tx_helper_raw, show raw_pos 0 = 0 from rfl] using h

/-! ## Slices of the source buffer -/

theorem slice_length (message : Nat → Byte) (lo n : Nat) : (slice message lo n).length = n := by
  simp [slice]

theorem slice_append (message : Nat → Byte) (lo a b : Nat) :
    slice message lo a ++ slice message (lo + a) b = slice message lo (a + b) := by
  simp only [slice, List.range_add, List.map_append, List.map_map]
  congr 1
  apply List.map_congr_left
  intro i _
  simp [Nat.add_assoc]

theorem slice_take (message : Nat → Byte) (lo n k : Nat) (h : k ≤ n) :
    (slice message lo n).take k = slice message lo k := by
  simp only [slice, ← List.map_take, List.take_range, Nat.min_eq_left h]

/-- Consecutive chunks of `s` bytes from `a` on, glued together, are one slice. -/
theorem flatten_slices (message : Nat → Byte) (a s : Nat) :
    ∀ c, ((List.range c).map (fun k => slice message (a + s * k) s)).flatten
      = slice message a (s * c) := by
  intro c
  induction c with
  | zero => simp [slice]
  | succ c ih =>
    rw [List.range_succ, List.map_append, List.flatten_append, ih]
    simp only [List.map_cons, List.map_nil, List.flatten_cons, List.flatten_nil,
      List.append_nil]
    rw [slice_append, Nat.mul_succ]

/-- Of a list of `m` chunks, the first `c` chunks decide the first `n` bytes
when they hold at least `n` bytes. -/
theorem take_flatten_range (f : Nat → List Byte) (c m n : Nat) (hcm : c ≤ m)
    (hn : n ≤ (((List.range c).map f).flatten).length) :
    (((List.range m).map f).flatten).take n = (((List.range c).map f).flatten).take n := by
  obtain ⟨e, rfl⟩ := Nat.exists_eq_add_of_le hcm
  rw [List.range_add, List.map_append, List.flatten_append, List.take_append_of_le_length hn]

/-! ## C1: packet count of Marker-Prefixed chunking -/

/-- The number of iterations `usb_tx_helper` makes when `pos` cannot wrap. -/
theorem helper_iterations (len m fuel : Nat) (hlen : len ≤ 4294967293)
    (hfuel : ceil_div (len - 1) 63 ≤ fuel) (hm : m ≤ fuel)
    (hpos : ∀ i, i < m → helper_pos i < len)
    (hret : (m = fuel ∧ helper_pos fuel < len) ∨ ¬ helper_pos m < len) :
    m = ceil_div (len - 1) 63 ∧ ¬ helper_pos m < len := by
  have hc : ¬ helper_pos (ceil_div (len - 1) 63) < len := by
    simp only [helper_pos, ceil_div, UINT32_MOD]
    omega
  have hle : m ≤ ceil_div (len - 1) 63 := by
    by_contra hgt
    exact hc (hpos _ (Nat.lt_of_not_le hgt))
  have hge : ¬ helper_pos m < len → ceil_div (len - 1) 63 ≤ m := by
    intro h
    by_contra hlt
    apply h
    simp only [helper_pos, ceil_div, UINT32_MOD] at hlt hle ⊢
    omega
  rcases hret with ⟨h1, h2⟩ | h2
  · have : m = ceil_div (len - 1) 63 := by omega
    subst h1
    rw [this] at h2
    exact absurd h2 hc
  · exact ⟨Nat.le_antisymm hle (hge h2), h2⟩

/-- C1 (amended): under hardware that accepts every packet, for every source
buffer, every endpoint and every `len ≤ 2^32 - 3`, `usb_tx_helper` (and so
`usb_tx` and `usb_debug_tx`) returns `true` once it is given fuel for
`ceil((len-1)/63)` iterations, it has then made exactly `ceil((len-1)/63)` writes,
all of them to the endpoint it was called with and all accepted; for `len = 0`
it writes nothing. -/
theorem usb_tx_helper_packet_count (hw : Nat → Nat) (hacc : ∀ k, hw k ≠ 0) (dev : Option Nat)
    (message : Nat → Byte) (len ep fuel : Nat) (hlen : len ≤ 4294967293)
    (hfuel : ceil_div (len - 1) 63 ≤ fuel) :
    (usb_tx_helper hw dev message len ep fuel).ret = some true ∧
    (usb_tx_helper hw dev message len ep fuel).log.length = ceil_div (len - 1) 63 ∧
    (∀ w ∈ (usb_tx_helper hw dev message len ep fuel).log, w.endpoint = ep ∧ w.result ≠ 0) ∧
    (len = 0 → (usb_tx_helper hw dev message len ep fuel).log = []) ∧
    (usb_tx hw dev message len fuel).log.length = ceil_div (len - 1) 63 ∧
    (∀ w ∈ (usb_tx hw dev message len fuel).log, w.endpoint = ENDPOINT_ADDRESS_IN) ∧
    (usb_debug_tx hw dev message len fuel).log.length = ceil_div (len - 1) 63 ∧
    (∀ w ∈ (usb_debug_tx hw dev message len fuel).log, w.endpoint = ENDPOINT_ADDRESS_DEBUG_IN) ∧
    63 * ceil_div (len - 1) 63 < len - 1 + 63 ∧ len - 1 ≤ 63 * ceil_div (len - 1) 63 := by
  have key : ∀ e, (usb_tx_helper hw dev message len e fuel).ret = some true ∧
      (usb_tx_helper hw dev message len e fuel).log.length = ceil_div (len - 1) 63 ∧
      (∀ w ∈ (usb_tx_helper hw dev message len e fuel).log, w.endpoint = e ∧ w.result ≠ 0) := by
    intro e
    obtain ⟨m, hm, hpos, hlog, hret⟩ := usb_tx_helper_ready hw hacc dev message len e fuel
    have hit := helper_iterations len m fuel hlen hfuel hm hpos
      (hret.imp (fun h => ⟨h.1, h.2.1⟩) (fun h => h.1))
    refine ⟨?_, ?_, ?_⟩
    · rcases hret with ⟨h1, h2, _⟩ | ⟨_, h3⟩
      · exact absurd (h1 ▸ h2) (h1 ▸ hit.2)
      · exact h3
    · rw [hlog, List.length_map, List.length_range]
      exact hit.1
    · intro w hw
      rw [hlog, List.mem_map] at hw
      obtain ⟨k, _, rfl⟩ := hw
      exact ⟨rfl, hacc k⟩
  refine ⟨(key ep).1, (key ep).2.1, (key ep).2.2, ?_, (key _).2.1,
    fun w hw => ((key _).2.2 w hw).1, (key _).2.1, fun w hw => ((key _).2.2 w hw).1, ?_, ?_⟩
  · intro h0
    have hl := (key ep).2.1
    rw [h0] at hl
    rw [h0]
    exact List.length_eq_zero.mp (by simpa [ceil_div] using hl)
  · simp only [ceil_div]; omega
  · simp only [ceil_div]; omega

/-- C1 witness: 130 bytes on the normal channel make 3 packets, and a length of 0
makes none. -/
theorem usb_tx_helper_packet_count_witness :
    (usb_tx hw_ready (some 1) (sample_message 130) 130 3).log.length = 3 ∧
    (usb_tx hw_ready (some 1) (sample_message 130) 0 0).log = [] ∧
    (usb_tx_helper hw_ready (some 1) (sample_message 130) 130 ENDPOINT_ADDRESS_IN 3).ret
      = some true :=
  have h := usb_tx_helper_packet_count hw_ready (fun _ => Nat.succ_ne_zero 63) (some 1)
    (sample_message 130) 130 ENDPOINT_ADDRESS_IN 3 (by decide) (by decide)
  ⟨by decide, by decide, h.1⟩

/-- C1 counterexample: with `len = 2^32 - 1` the claimed count is
`ceil((len-1)/63) = 68174085`, but after 68174085 packets `pos` has wrapped to
60, the loop goes on, and 68174086 iterations have written 68174086 packets
without the function having returned. -/
theorem usb_tx_packet_count_wraps :
    ceil_div (4294967295 - 1) 63 = 68174085 ∧
    (usb_tx hw_ready (some 1) (fun _ => 0) 4294967295 68174086).log.length = 68174086 ∧
    (usb_tx hw_ready (some 1) (fun _ => 0) 4294967295 68174086).ret = none := by
  obtain ⟨m, hm, hpos, hlog, hret⟩ := usb_tx_helper_ready hw_ready (fun _ => Nat.succ_ne_zero 63)
    (some 1) (fun _ => 0) 4294967295 ENDPOINT_ADDRESS_IN 68174086
  have hm2 : m = 68174086 ∧
      (usb_tx_helper hw_ready (some 1) (fun _ => 0) 4294967295 ENDPOINT_ADDRESS_IN
        68174086).ret = none := by
    rcases hret with ⟨h1, _, h3⟩ | ⟨h2, _⟩
    · exact ⟨h1, h3⟩
    · exfalso
      apply h2
      simp only [helper_pos, UINT32_MOD]
      omega
  refine ⟨by decide, ?_, hm2.2⟩
  show (usb_tx_helper hw_ready (some 1) (fun _ => 0) 4294967295 ENDPOINT_ADDRESS_IN
    68174086).log.length = 68174086
  rw [hlog, List.length_map, List.length_range]
  exact hm2.1

/-! ## C2: content of Marker-Prefixed chunking -/

theorem helper_pos_below_ceil (len i : Nat) (h32 : len < 4294967296)
    (hi : i < ceil_div (len - 1) 63) : helper_pos i = 1 + 63 * i ∧ helper_pos i < len := by
  simp only [helper_pos, ceil_div, UINT32_MOD] at hi ⊢
  omega

theorem helper_pos_at_ceil (len : Nat) (hlen : len ≤ 4294967293) :
    ¬ helper_pos (ceil_div (len - 1) 63) < len := by
  simp only [helper_pos, ceil_div, UINT32_MOD]
  omega

theorem payload_helper_writes (hw : Nat → Nat) (dev : Option Nat) (message : Nat → Byte)
    (ep m : Nat) :
    payload ((List.range m).map (helper_write hw dev message ep))
      = ((List.range m).map (fun k => slice message (helper_pos k) 63)).flatten := by
  simp only [payload, packets, List.map_map]
  rfl

/-- The first `len - 1` payload bytes of a run that made at least
`ceil((len-1)/63)` iterations. -/
theorem payload_take (hw : Nat → Nat) (dev : Option Nat) (message : Nat → Byte)
    (len ep m : Nat) (h32 : len < 4294967296) (hcm : ceil_div (len - 1) 63 ≤ m) :
    (payload ((List.range m).map (helper_write hw dev message ep))).take (len - 1)
      = slice message 1 (len - 1) := by
  have hfirst : ((List.range (ceil_div (len - 1) 63)).map
        (fun k => slice message (helper_pos k) 63)).flatten
      = slice message 1 (63 * ceil_div (len - 1) 63) := by
    rw [← flatten_slices message 1 63]
    congr 1
    apply List.map_congr_left
    intro k hk
    rw [(helper_pos_below_ceil len k h32 (List.mem_range.mp hk)).1]
  have hcov : len - 1 ≤ 63 * ceil_div (len - 1) 63 := by
    simp only [ceil_div]; omega
  rw [payload_helper_writes, take_flatten_range _ _ m (len - 1) hcm
    (by rw [hfirst, slice_length]; exact hcov), hfirst, slice_take _ _ _ _ hcov]

/-- Content of Marker-Prefixed chunking when the hardware accepts every write at
once: packet shape, payload and, for `len ≤ 2^32 - 3`, the source bytes of each
packet and the independence of byte 0. -/
theorem usb_tx_helper_content_ready (hw : Nat → Nat) (hacc : ∀ k, hw k ≠ 0) (dev : Option Nat)
    (message : Nat → Byte) (len ep fuel : Nat) (h32 : len < 4294967296) :
    (∀ p ∈ packets (usb_tx_helper hw dev message len ep fuel).log,
        p.length = 64 ∧ p.head? = some 0x3F) ∧
    ((usb_tx_helper hw dev message len ep fuel).ret = some true ∨
        ceil_div (len - 1) 63 ≤ fuel →
      (payload (usb_tx_helper hw dev message len ep fuel).log).take (len - 1)
        = slice message 1 (len - 1)) ∧
    (len ≤ 4294967293 →
      (ceil_div (len - 1) 63 ≤ fuel →
        (usb_tx_helper hw dev message len ep fuel).ret = some true) ∧
      (∀ k p, (packets (usb_tx_helper hw dev message len ep fuel).log)[k]? = some p →
        p = 0x3F :: slice message (1 + 63 * k) 63) ∧
      (∀ other : Nat → Byte, (∀ i, 1 ≤ i → other i = message i) →
        packets (usb_tx_helper hw dev other len ep fuel).log
          = packets (usb_tx_helper hw dev message len ep fuel).log)) := by
  obtain ⟨m, hm, hpos, hlog, hret⟩ := usb_tx_helper_ready hw hacc dev message len ep fuel
  refine ⟨?_, ?_, ?_⟩
  · intro p hp
    rw [hlog, packets, List.map_map, List.mem_map] at hp
    obtain ⟨k, _, rfl⟩ := hp
    simp [helper_write, slice_length]
  · intro hdone
    have hcm : ceil_div (len - 1) 63 ≤ m := by
      by_contra hlt
      have hb := (helper_pos_below_ceil len m h32 (Nat.lt_of_not_le hlt)).2
      rcases hret with ⟨h1, _, h3⟩ | ⟨h2, _⟩
      · rcases hdone with hd | hd
        · rw [h3] at hd; exact absurd hd (by simp)
        · omega
      · exact h2 hb
    rw [hlog]
    exact payload_take hw dev message len ep m h32 hcm
  · intro hlen
    have hmc : m ≤ ceil_div (len - 1) 63 := by
      by_contra hgt
      exact helper_pos_at_ceil len hlen (hpos _ (Nat.lt_of_not_le hgt))
    have hpk : ∀ msg : Nat → Byte, ∀ k, k < m →
        (helper_write hw dev msg ep k).data = 0x3F :: slice msg (1 + 63 * k) 63 := by
      intro msg k hk
      have hk2 : k < ceil_div (len - 1) 63 := Nat.lt_of_lt_of_le hk hmc
      simp only [helper_write, (helper_pos_below_ceil len k h32 hk2).1]
    refine ⟨?_, ?_, ?_⟩
    · intro hfuel
      have hit := helper_iterations len m fuel hlen hfuel hm hpos
        (hret.imp (fun h => ⟨h.1, h.2.1⟩) (fun h => h.1))
      rcases hret with ⟨h1, h2, _⟩ | ⟨_, h3⟩
      · exact absurd (h1 ▸ h2) (h1 ▸ hit.2)
      · exact h3
    · intro k p hkp
      rw [hlog, packets, List.map_map, List.getElem?_map] at hkp
      by_cases hk : k < m
      · rw [List.getElem?_range hk] at hkp
        simp only [Option.map_some', Function.comp_apply, Option.some.injEq] at hkp
        rw [← hkp]
        exact hpk message k hk
      · rw [List.getElem?_eq_none (by simpa using hk)] at hkp
        simp at hkp
    · intro other hother
      obtain ⟨m2, hm2, hpos2, hlog2, hret2⟩ :=
        usb_tx_helper_ready hw hacc dev other len ep fuel
      have hmm : m2 = m := by
        rcases Nat.lt_trichotomy m2 m with hlt | heq | hgt
        · have hb := hpos m2 hlt
          rcases hret2 with ⟨h1, _, _⟩ | ⟨h2, _⟩
          · omega
          · exact absurd hb h2
        · exact heq
        · have hb := hpos2 m hgt
          rcases hret with ⟨h1, _, _⟩ | ⟨h2, _⟩
          · omega
          · exact absurd hb h2
      rw [hlog, hlog2, hmm, packets, packets, List.map_map, List.map_map]
      apply List.map_congr_left
      intro k hk
      have hk1 := List.mem_range.mp hk
      simp only [Function.comp_apply, hpk other k hk1, hpk message k hk1]
      congr 1
      simp only [slice]
      apply List.map_congr_left
      intro i _
      exact hother _ (by omega)

/-- C3 (evaluation of the code at the failing input): 130 bytes on the normal
channel, the source holding `0xEE` from index 130 on. Three packets are written;
the third carries the source bytes 127..129 and then the 60 bytes `0xEE` found
at the source indices 130..189, not 60 zero bytes. -/
theorem usb_tx_last_packet_reads_past_len :
    (usb_tx hw_ready (some 1) (sample_message 130) 130 3).ret = some true ∧
    packets (usb_tx hw_ready (some 1) (sample_message 130) 130 3).log
      = [0x3F :: slice (sample_message 130) 1 63,
         0x3F :: slice (sample_message 130) 64 63,
         0x3F :: (slice (sample_message 130) 127 3 ++ List.replicate 60 0xEE)] := by
  decide

/-! ## C4: packet count of Raw chunking -/

theorem raw_pos_below_ceil (len i : Nat) (h32 : len < 4294967296)
    (hi : i < ceil_div len 64) : raw_pos i = 64 * i ∧ raw_pos i < len := by
  simp only [raw_pos, ceil_div, UINT32_MOD] at hi ⊢
  omega

theorem raw_pos_at_ceil (len : Nat) (hlen : len ≤ 4294967232) :
    ¬ raw_pos (ceil_div len 64) < len := by
  simp only [raw_pos, ceil_div, UINT32_MOD]
  omega

/-- The number of iterations `usb_tx_helper_raw` makes when `pos` cannot wrap. -/
theorem raw_iterations (len m fuel : Nat) (hlen : len ≤ 4294967232)
    (hfuel : ceil_div len 64 ≤ fuel) (hm : m ≤ fuel)
    (hpos : ∀ i, i < m → raw_pos i < len)
    (hret : (m = fuel ∧ raw_pos fuel < len) ∨ ¬ raw_pos m < len) :
    m = ceil_div len 64 ∧ ¬ raw_pos m < len := by
  have hc := raw_pos_at_ceil len hlen
  have hle : m ≤ ceil_div len 64 := by
    by_contra hgt
    exact hc (hpos _ (Nat.lt_of_not_le hgt))
  have hge : ¬ raw_pos m < len → ceil_div len 64 ≤ m := by
    intro h
    by_contra hlt
    exact h (raw_pos_below_ceil len m (by omega) (Nat.lt_of_not_le hlt)).2
  rcases hret with ⟨h1, h2⟩ | h2
  · have : m = ceil_div len 64 := by omega
    subst h1
    rw [this] at h2
    exact absurd h2 hc
  · exact ⟨Nat.le_antisymm hle (hge h2), h2⟩

/-- C4 (amended): under hardware that accepts every packet, for every source
buffer and every `len ≤ 2^32 - 64`, `usb_tx_helper_raw` returns `true` once it is
given fuel for `ceil(len/64)` iterations and has then made exactly `ceil(len/64)`
writes, each of exactly 64 bytes, each accepted; through `usb_u2f_tx` they all go
to the U2F IN endpoint. -/
theorem usb_tx_helper_raw_packet_count (hw : Nat → Nat) (hacc : ∀ k, hw k ≠ 0)
    (dev : Option Nat) (message : Nat → Byte) (len ep fuel : Nat) (hlen : len ≤ 4294967232)
    (hfuel : ceil_div len 64 ≤ fuel) :
    (usb_tx_helper_raw hw dev message len ep fuel).ret = some true ∧
    (usb_tx_helper_raw hw dev message len ep fuel).log.length = ceil_div len 64 ∧
    (∀ w ∈ (usb_tx_helper_raw hw dev message len ep fuel).log,
      w.endpoint = ep ∧ w.result ≠ 0 ∧ w.data.length = 64) ∧
    (usb_u2f_tx hw dev message len fuel).ret = some true ∧
    (usb_u2f_tx hw dev message len fuel).log.length = ceil_div len 64 ∧
    (∀ w ∈ (usb_u2f_tx hw dev message len fuel).log,
      w.endpoint = ENDPOINT_ADDRESS_U2F_IN ∧ w.data.length = 64) ∧
    64 * ceil_div len 64 < len + 64 ∧ len ≤ 64 * ceil_div len 64 := by
  have key : ∀ e, (usb_tx_helper_raw hw dev message len e fuel).ret = some true ∧
      (usb_tx_helper_raw hw dev message len e fuel).log.length = ceil_div len 64 ∧
      (∀ w ∈ (usb_tx_helper_raw hw dev message len e fuel).log,
        w.endpoint = e ∧ w.result ≠ 0 ∧ w.data.length = 64) := by
    intro e
    obtain ⟨m, hm, hpos, hlog, hret⟩ := usb_tx_helper_raw_ready hw hacc dev message len e fuel
    have hit := raw_iterations len m fuel hlen hfuel hm hpos
      (hret.imp (fun h => ⟨h.1, h.2.1⟩) (fun h => h.1))
    refine ⟨?_, ?_, ?_⟩
    · rcases hret with ⟨h1, h2, _⟩ | ⟨_, h3⟩
      · exact absurd (h1 ▸ h2) (h1 ▸ hit.2)
      · exact h3
    · rw [hlog, List.length_map, List.length_range]
      exact hit.1
    · intro w hw
      rw [hlog, List.mem_map] at hw
      obtain ⟨k, _, rfl⟩ := hw
      exact ⟨rfl, hacc k, slice_length _ _ _⟩
  refine ⟨(key ep).1, (key ep).2.1, (key ep).2.2, (key _).1, (key _).2.1,
    fun w hw => ⟨((key _).2.2 w hw).1, ((key _).2.2 w hw).2.2⟩, ?_, ?_⟩
  · simp only [ceil_div]; omega
  · simp only [ceil_div]; omega

/-- C4 witness: a 64-byte U2F payload makes exactly 1 packet. -/
theorem usb_tx_helper_raw_packet_count_witness :
    (usb_u2f_tx hw_ready (some 1) (sample_message 64) 64 1).log.length = 1 ∧
    (usb_u2f_tx hw_ready (some 1) (sample_message 64) 64 1).ret = some true ∧
    packets (usb_u2f_tx hw_ready (some 1) (sample_message 64) 64 1).log
      = [slice (sample_message 64) 0 64] :=
  have h := usb_tx_helper_raw_packet_count hw_ready (fun _ => Nat.succ_ne_zero 63) (some 1)
    (sample_message 64) 64 ENDPOINT_ADDRESS_U2F_IN 1 (by decide) (by decide)
  ⟨by decide, h.2.2.2.1, by decide⟩

/-- C4 counterexample: with `len = 2^32 - 1` the claimed count is
`ceil(len/64) = 67108864`, but after 67108864 packets `pos` has wrapped to 0 and
the loop goes on: 67108865 iterations have written 67108865 packets without the
function having returned. -/
theorem usb_u2f_tx_packet_count_wraps :
    ceil_div 4294967295 64 = 67108864 ∧
    (usb_u2f_tx hw_ready (some 1) (fun _ => 0) 4294967295 67108865).log.length = 67108865 ∧
    (usb_u2f_tx hw_ready (some 1) (fun _ => 0) 4294967295 67108865).ret = none := by
  obtain ⟨m, hm, hpos, hlog, hret⟩ := usb_tx_helper_raw_ready hw_ready
    (fun _ => Nat.succ_ne_zero 63) (some 1) (fun _ => 0) 4294967295 ENDPOINT_ADDRESS_U2F_IN
    67108865
  have hm2 : m = 67108865 ∧
      (usb_tx_helper_raw hw_ready (some 1) (fun _ => 0) 4294967295 ENDPOINT_ADDRESS_U2F_IN
        67108865).ret = none := by
    rcases hret with ⟨h1, _, h3⟩ | ⟨h2, _⟩
    · exact ⟨h1, h3⟩
    · exfalso
      apply h2
      simp only [raw_pos, UINT32_MOD]
      omega
  refine ⟨by decide, ?_, hm2.2⟩
  show (usb_tx_helper_raw hw_ready (some 1) (fun _ => 0) 4294967295 ENDPOINT_ADDRESS_U2F_IN
    67108865).log.length = 67108865
  rw [hlog, List.length_map, List.length_range]
  exact hm2.1

/-! ## C5: round trip of Raw chunking -/

/-- Round trip of Raw chunking when the hardware accepts every write at once. -/
theorem usb_tx_helper_raw_round_trip_ready (hw : Nat → Nat) (hacc : ∀ k, hw k ≠ 0)
    (dev : Option Nat) (message : Nat → Byte) (len ep fuel : Nat) (h32 : len < 4294967296) :
    ((usb_tx_helper_raw hw dev message len ep fuel).ret = some true ∨
        ceil_div len 64 ≤ fuel →
      ((packets (usb_tx_helper_raw hw dev message len ep fuel).log).flatten).take len
        = slice message 0 len) ∧
    (∀ k p, (packets (usb_tx_helper_raw hw dev message len ep fuel).log)[k]? = some p →
      p = slice message (raw_pos k) 64) ∧
    raw_pos 0 = 0 ∧ (∀ k, raw_pos (k + 1) = (raw_pos k + 64) % 4294967296) ∧
    (len ≤ 4294967232 → ceil_div len 64 ≤ fuel →
      (usb_tx_helper_raw hw dev message len ep fuel).ret = some true) := by
  obtain ⟨m, hm, hpos, hlog, hret⟩ := usb_tx_helper_raw_ready hw hacc dev message len ep fuel
  refine ⟨?_, ?_, rfl, fun k => (raw_pos_succ k).symm, ?_⟩
  · intro hdone
    have hcm : ceil_div len 64 ≤ m := by
      by_contra hlt
      have hb := (raw_pos_below_ceil len m h32 (Nat.lt_of_not_le hlt)).2
      rcases hret with ⟨h1, _, h3⟩ | ⟨h2, _⟩
      · rcases hdone with hd | hd
        · rw [h3] at hd; exact absurd hd (by simp)
        · omega
      · exact h2 hb
    have hfirst : ((List.range (ceil_div len 64)).map
          (fun k => slice message (raw_pos k) 64)).flatten
        = slice message 0 (64 * ceil_div len 64) := by
      rw [← flatten_slices message 0 64]
      congr 1
      apply List.map_congr_left
      intro k hk
      rw [(raw_pos_below_ceil len k h32 (List.mem_range.mp hk)).1, Nat.zero_add]
    have hcov : len ≤ 64 * ceil_div len 64 := by
      simp only [ceil_div]; omega
    have hpk : packets ((List.range m).map (raw_write hw dev message ep))
        = (List.range m).map (fun k => slice message (raw_pos k) 64) := by
      simp only [packets, List.map_map]
      rfl
    rw [hlog, hpk, take_flatten_range _ _ m len hcm
      (by rw [hfirst, slice_length]; exact hcov), hfirst, slice_take _ _ _ _ hcov]
  · intro k p hkp
    rw [hlog, packets, List.map_map, List.getElem?_map] at hkp
    by_cases hk : k < m
    · rw [List.getElem?_range hk] at hkp
      simp only [Option.map_some', Function.comp_apply, Option.some.injEq] at hkp
      rw [← hkp]
      rfl
    · rw [List.getElem?_eq_none (by simpa using hk)] at hkp
      simp at hkp
  · intro hlen hfuel
    have hit := raw_iterations len m fuel hlen hfuel hm hpos
      (hret.imp (fun h => ⟨h.1, h.2.1⟩) (fun h => h.1))
    rcases hret with ⟨h1, h2, _⟩ | ⟨_, h3⟩
    · exact absurd (h1 ▸ h2) (h1 ▸ hit.2)
    · exact h3

/-! ## C6: the last Raw packet -/

/-- C6 (evaluation of the code at the failing input): 10 bytes on the U2F
channel, the source holding `0xEE` from index 10 on. The one packet written
carries the source bytes 0..9 and then the 54 bytes `0xEE` found at the source
indices 10..63, not 54 zero bytes. -/
theorem usb_u2f_tx_last_packet_reads_past_len :
    (usb_u2f_tx hw_ready (some 1) (sample_message 10) 10 1).ret = some true ∧
    packets (usb_u2f_tx hw_ready (some 1) (sample_message 10) 10 1).log
      = [slice (sample_message 10) 0 10 ++ List.replicate 54 0xEE] := by
  decide

/-! ## C7, C8: the control-request handler -/


set_option maxRecDepth 20000 in
theorem sizeof_hid_report_descriptor : sizeof hid_report_descriptor = 919 := by decide

theorem sizeof_hid_report_descriptor_u2f : sizeof hid_report_descriptor_u2f = 34 := by decide

/-- What `hid_control_request` answers to the report-descriptor request with
`wIndex = i`. -/
theorem hid_control_request_report (b : Build) (i wLength : Nat) (buf : BufPtr) (len : Nat) :
    hid_control_request b ⟨ENDPOINT_ADDRESS_IN, USB_REQ_GET_DESCRIPTOR, 0x2200, i, wLength⟩ buf len
      = if b.HAVE_U2F = false ∨ i < (if b.DEBUG_LINK then 2 else 1) then
          ⟨1, .hid_report_descriptor, sizeof hid_report_descriptor⟩
        else ⟨1, .hid_report_descriptor_u2f, sizeof hid_report_descriptor_u2f⟩ := by
  rcases b with ⟨dl, u2f⟩
  cases dl <;> cases u2f <;>
    simp only [hid_control_request, ne_eq, not_true_eq_false, or_self, ↓reduceIte,
      Bool.false_eq_true, Bool.true_eq_false, Bool.and_self, Bool.and_false, Bool.and_true,
      decide_eq_true_eq, true_or, false_or, Nat.lt_one_iff]

theorem declared_interfaces_eq (b : Build) :
    declared_interfaces b = hid_iface ++ (if b.DEBUG_LINK then hid_iface_debug else []) ++
      (if b.HAVE_U2F then hid_iface_u2f b else []) := by
  rcases b with ⟨dl, u2f⟩
  cases dl <;> cases u2f <;> rfl

/-- C7: in each of the four builds, the report-descriptor GET_DESCRIPTOR request
with `wIndex = i` is handled, and for every interface `d` the build declares
with number `i` the answer is the report descriptor of `d`: its length is the
`wDescriptorLength` of the HID function descriptor of `d` and the size of the
array pointed to, which is `hid_report_descriptor` for the normal and debug-link
interfaces and `hid_report_descriptor_u2f` for the U2F interface. Without U2F
the normal descriptor is the answer for every index; with U2F every index from
the U2F interface number on gets the U2F descriptor and every smaller one the
normal descriptor. -/
theorem hid_control_request_descriptor (b : Build) (i wLength : Nat) (buf : BufPtr)
    (len : Nat) :
    (hid_control_request b
      ⟨ENDPOINT_ADDRESS_IN, USB_REQ_GET_DESCRIPTOR, 0x2200, i, wLength⟩ buf len).ret = 1 ∧
    (∀ d ∈ declared_interfaces b, d.bInterfaceNumber = i →
      (hid_control_request b
        ⟨ENDPOINT_ADDRESS_IN, USB_REQ_GET_DESCRIPTOR, 0x2200, i, wLength⟩ buf len).len
          = d.extra.wDescriptorLength) ∧
    (∀ d ∈ hid_iface ++ hid_iface_debug, d ∈ declared_interfaces b → d.bInterfaceNumber = i →
      hid_control_request b
        ⟨ENDPOINT_ADDRESS_IN, USB_REQ_GET_DESCRIPTOR, 0x2200, i, wLength⟩ buf len
          = ⟨1, .hid_report_descriptor, sizeof hid_report_descriptor⟩) ∧
    (∀ d ∈ hid_iface_u2f b, d ∈ declared_interfaces b → d.bInterfaceNumber = i →
      hid_control_request b
        ⟨ENDPOINT_ADDRESS_IN, USB_REQ_GET_DESCRIPTOR, 0x2200, i, wLength⟩ buf len
          = ⟨1, .hid_report_descriptor_u2f, sizeof hid_report_descriptor_u2f⟩) ∧
    (b.HAVE_U2F = false →
      hid_control_request b
        ⟨ENDPOINT_ADDRESS_IN, USB_REQ_GET_DESCRIPTOR, 0x2200, i, wLength⟩ buf len
          = ⟨1, .hid_report_descriptor, sizeof hid_report_descriptor⟩) ∧
    (b.HAVE_U2F = true → ∀ u ∈ hid_iface_u2f b,
      u ∈ declared_interfaces b ∧
      (u.bInterfaceNumber ≤ i →
        hid_control_request b
          ⟨ENDPOINT_ADDRESS_IN, USB_REQ_GET_DESCRIPTOR, 0x2200, i, wLength⟩ buf len
            = ⟨1, .hid_report_descriptor_u2f, sizeof hid_report_descriptor_u2f⟩) ∧
      (i < u.bInterfaceNumber →
        hid_control_request b
          ⟨ENDPOINT_ADDRESS_IN, USB_REQ_GET_DESCRIPTOR, 0x2200, i, wLength⟩ buf len
            = ⟨1, .hid_report_descriptor, sizeof hid_report_descriptor⟩)) ∧
    (∃ a, (hid_control_request b
        ⟨ENDPOINT_ADDRESS_IN, USB_REQ_GET_DESCRIPTOR, 0x2200, i, wLength⟩ buf len).buf.pointee
          = some a ∧
      (hid_control_request b
        ⟨ENDPOINT_ADDRESS_IN, USB_REQ_GET_DESCRIPTOR, 0x2200, i, wLength⟩ buf len).len
          = sizeof a) := by
  rw [hid_control_request_report, declared_interfaces_eq]
  rcases b with ⟨dl, u2f⟩
  cases dl <;> cases u2f
  all_goals
    simp only [hid_iface, hid_iface_debug, hid_iface_u2f, hid_function, hid_function_u2f,
      Bool.false_eq_true, Bool.true_eq_false, ↓reduceIte, true_or, false_or, List.append_nil,
      List.mem_cons, List.mem_singleton, List.mem_append, List.not_mem_nil, or_false,
      List.cons_append, List.nil_append, forall_eq_or_imp, forall_eq, false_implies,
      implies_true, true_and, and_true]
  all_goals
    simp only [sizeof_hid_report_descriptor, sizeof_hid_report_descriptor_u2f, hid_endpoints,
      hid_endpoints_debug, hid_endpoints_u2f, ENDPOINT_ADDRESS_IN, ENDPOINT_ADDRESS_OUT,
      ENDPOINT_ADDRESS_DEBUG_IN, ENDPOINT_ADDRESS_DEBUG_OUT, ENDPOINT_ADDRESS_U2F_IN,
      ENDPOINT_ADDRESS_U2F_OUT, BufPtr.pointee, usb_interface_descriptor.mk.injEq,
      hid_function_descriptor.mk.injEq, ControlResult.mk.injEq]
  all_goals
    rcases i with _ | _ | _ | i <;>
      first
        | (simp [sizeof_hid_report_descriptor, sizeof_hid_report_descriptor_u2f]; done)
        | (have h3 : ¬ (i + 1 + 1 + 1 < 2) := by omega
           simp [h3, sizeof_hid_report_descriptor, sizeof_hid_report_descriptor_u2f])


/-- C8: `hid_control_request` returns 1 exactly for the setup packets with
`bmRequestType = ENDPOINT_ADDRESS_IN` (`0x81`), `bRequest =
USB_REQ_GET_DESCRIPTOR` and `wValue = 0x2200`; for every other setup packet it
returns 0 and leaves `*buf` and `*len` as they were. It never returns anything
but 0 or 1. -/
theorem hid_control_request_declines (b : Build) (req : usb_setup_data) (buf : BufPtr)
    (len : Nat) :
    ((hid_control_request b req buf len).ret = 1 ↔
      (req.bmRequestType = ENDPOINT_ADDRESS_IN ∧ req.bRequest = USB_REQ_GET_DESCRIPTOR ∧
        req.wValue = 0x2200)) ∧
    (¬ (req.bmRequestType = ENDPOINT_ADDRESS_IN ∧ req.bRequest = USB_REQ_GET_DESCRIPTOR ∧
        req.wValue = 0x2200) →
      hid_control_request b req buf len = ⟨0, buf, len⟩) ∧
    ((hid_control_request b req buf len).ret = 0 ∨ (hid_control_request b req buf len).ret = 1) ∧
    ENDPOINT_ADDRESS_IN = 0x81 ∧ USB_REQ_GET_DESCRIPTOR = 6 := by
  by_cases h : req.bmRequestType ≠ ENDPOINT_ADDRESS_IN ∨ req.bRequest ≠ USB_REQ_GET_DESCRIPTOR ∨
      req.wValue ≠ 0x2200
  · have hn : ¬ (req.bmRequestType = ENDPOINT_ADDRESS_IN ∧
        req.bRequest = USB_REQ_GET_DESCRIPTOR ∧ req.wValue = 0x2200) := by
      rintro ⟨h1, h2, h3⟩
      rcases h with h | h | h
      · exact h h1
      · exact h h2
      · exact h h3
    have hr : hid_control_request b req buf len = ⟨0, buf, len⟩ := by
      rw [hid_control_request, if_pos h]
    rw [hr]
    exact ⟨⟨fun h01 => by simp at h01, fun hy => absurd hy hn⟩, fun _ => rfl,
      Or.inl rfl, rfl, rfl⟩
  · have hy : req.bmRequestType = ENDPOINT_ADDRESS_IN ∧
        req.bRequest = USB_REQ_GET_DESCRIPTOR ∧ req.wValue = 0x2200 := by
      refine ⟨?_, ?_, ?_⟩ <;> (by_contra hc; exact h (by simp [hc]))
    have hr : (hid_control_request b req buf len).ret = 1 := by
      rw [hid_control_request, if_neg h]
      repeat' split
      all_goals rfl
    exact ⟨⟨fun _ => hy, fun _ => hr⟩, fun hn => absurd hy hn, Or.inr hr, rfl, rfl⟩

/-! ## C9, C10: the receive path -/


theorem usbd_ep_read_packet_count (fifo : Nat → List Byte) (addr : Nat) (buf : List Byte) :
    (usbd_ep_read_packet fifo addr buf USB_SEGMENT_SIZE).1 = ((fifo addr).take 64).length ∧
    (usbd_ep_read_packet fifo addr buf USB_SEGMENT_SIZE).1 ≤ 64 ∧
    ((usbd_ep_read_packet fifo addr buf USB_SEGMENT_SIZE).2).take
        (usbd_ep_read_packet fifo addr buf USB_SEGMENT_SIZE).1 = (fifo addr).take 64 := by
  have h64 : ((fifo addr).take 64).length ≤ 64 := by
    rw [List.length_take]; exact Nat.min_le_left _ _
  have hrx : (usbd_ep_read_packet fifo addr buf USB_SEGMENT_SIZE).1
      = ((fifo addr).take 64).length := by
    simp only [usbd_ep_read_packet, USB_SEGMENT_SIZE]
    omega
  refine ⟨hrx, hrx ▸ h64, ?_⟩
  rw [hrx]
  simp only [usbd_ep_read_packet, USB_SEGMENT_SIZE]
  rw [List.take_append_of_le_length (le_refl _), List.take_length]

/-- C9: for every channel and every result `rx` of reading one packet of at most
64 bytes from its OUT endpoint, the receive handler of the channel calls an
application callback exactly when `rx ≠ 0` and the slot of the channel is not
`NULL`; it then makes one call, through that slot, of the function registered
there, with a message whose `len` is `rx` and whose first `rx` bytes are the
bytes read. When `rx = 0` or the slot is `NULL` it calls nothing, and in every
case its own statements leave the driver state as it was. -/
theorem rx_dispatch (c : Channel) (fifo : Nat → List Byte) (m : UsbMessage) (d : Driver)
    (ep : Nat) :
    ((c.handler.run fifo m d ep).calls ≠ [] ↔
      (usbd_ep_read_packet fifo c.out_endpoint m.message USB_SEGMENT_SIZE).1 ≠ 0 ∧
        c.slot d ≠ none) ∧
    (∀ f, (usbd_ep_read_packet fifo c.out_endpoint m.message USB_SEGMENT_SIZE).1 ≠ 0 →
      c.slot d = some f →
      ∃ msg, (c.handler.run fifo m d ep).calls = [⟨c, f, msg⟩] ∧
        msg.len = (usbd_ep_read_packet fifo c.out_endpoint m.message USB_SEGMENT_SIZE).1 ∧
        msg.len = ((fifo c.out_endpoint).take 64).length ∧
        msg.message.take msg.len = (fifo c.out_endpoint).take 64) ∧
    ((usbd_ep_read_packet fifo c.out_endpoint m.message USB_SEGMENT_SIZE).1 = 0 ∨
        c.slot d = none →
      (c.handler.run fifo m d ep).calls = [] ∧ (c.handler.run fifo m d ep).driver = d) ∧
    (c.handler.run fifo m d ep).driver = d ∧
    (c.handler.run fifo m d ep).reads = [c.out_endpoint] ∧
    (usbd_ep_read_packet fifo c.out_endpoint m.message USB_SEGMENT_SIZE).1 ≤ 64 := by
  have hr := usbd_ep_read_packet_count fifo c.out_endpoint m.message
  obtain ⟨rx, hrx⟩ : ∃ rx, (usbd_ep_read_packet fifo c.out_endpoint m.message
      USB_SEGMENT_SIZE).1 = rx := ⟨_, rfl⟩
  obtain ⟨bf, hbf⟩ : ∃ bf, (usbd_ep_read_packet fifo c.out_endpoint m.message
      USB_SEGMENT_SIZE).2 = bf := ⟨_, rfl⟩
  obtain ⟨s, hs⟩ : ∃ s, c.slot d = s := ⟨_, rfl⟩
  rw [hrx, hbf] at hr
  rw [hrx, hs]
  have hcalls : (c.handler.run fifo m d ep) =
      ⟨d, [c.out_endpoint], if rx ≠ 0 then
        (match s with
         | some f => [⟨c, f, { len := rx, message := bf }⟩]
         | none => [])
        else []⟩ := by
    cases c <;>
      simp only [Channel.handler, RxHandler.run, hid_rx_callback, hid_debug_rx_callback,
        hid_u2f_rx_callback, Channel.out_endpoint, Channel.slot] at hrx hbf hs ⊢ <;>
      simp only [hrx, hbf, hs] <;>
      rcases s with _ | f <;> by_cases h0 : rx = 0 <;> simp [h0]
  rw [hcalls]
  rcases s with _ | f <;> by_cases h0 : rx = 0 <;> simp [h0, hr.2.1, hr.2.2, ← hr.1]

/-- The handler `hid_set_config_callback` binds to the OUT endpoint of a channel
that is compiled in is the receive handler of that channel. -/
theorem bound_handler_of_channel (b : Build) (A : Channel) (hA : A.present b = true)
    (d : Driver) (w : Nat) :
    bound_handler (hid_set_config_callback b d w).ep_setups A.out_endpoint = some A.handler := by
  rcases b with ⟨dl, u2f⟩
  cases A <;> cases dl <;> cases u2f <;> first | rfl | exact absurd hA (by decide)

/-- C10: in a build that has channel `A`, the configuration callback binds the
receive handler of `A` to the OUT endpoint of `A`; whatever the three callback
slots hold, that handler reads the OUT endpoint of `A` and no other (distinct
channels have distinct OUT endpoints), every callback it calls is called through
the slot of `A` and is the function registered there, never through the slot
of another channel `B`, and what it calls depends on nothing but the packet on
the OUT endpoint of `A` and the slot of `A`. -/
theorem channel_isolation (b : Build) (A B : Channel) (hAB : A ≠ B)
    (hA : A.present b = true) (d : Driver) (fifo : Nat → List Byte) (m : UsbMessage)
    (w ep : Nat) :
    bound_handler (hid_set_config_callback b d w).ep_setups A.out_endpoint = some A.handler ∧
    packet_arrives b fifo m d A.out_endpoint = A.handler.run fifo m d A.out_endpoint ∧
    (A.handler.run fifo m d ep).reads = [A.out_endpoint] ∧
    A.out_endpoint ≠ B.out_endpoint ∧
    (∀ c ∈ (A.handler.run fifo m d ep).calls,
      c.slot = A ∧ c.slot ≠ B ∧ A.slot d = some c.callback) ∧
    (∀ (fifo2 : Nat → List Byte) (d2 : Driver),
      fifo2 A.out_endpoint = fifo A.out_endpoint → A.slot d2 = A.slot d →
      (A.handler.run fifo2 m d2 ep).calls = (A.handler.run fifo m d ep).calls) := by
  have hb := bound_handler_of_channel b A hA d 1
  refine ⟨bound_handler_of_channel b A hA d w, ?_, ?_, ?_, ?_, ?_⟩
  · simp only [packet_arrives, hb]
  · cases A <;>
      simp only [Channel.handler, RxHandler.run, hid_rx_callback, hid_debug_rx_callback,
        hid_u2f_rx_callback, Channel.out_endpoint] <;>
      split <;> (try split) <;> rfl
  · cases A <;> cases B <;> first | exact absurd rfl hAB | decide
  · intro c hc
    have hsl : c.slot = A ∧ A.slot d = some c.callback := by
      cases A <;>
        simp only [Channel.handler, RxHandler.run, hid_rx_callback, hid_debug_rx_callback,
          hid_u2f_rx_callback, Channel.slot] at hc ⊢ <;>
        split at hc <;> (try split at hc) <;> simp_all
    exact ⟨hsl.1, hsl.1 ▸ hAB, hsl.2⟩
  · intro fifo2 d2 hf hs
    cases A <;>
      simp only [Channel.handler, RxHandler.run, hid_rx_callback, hid_debug_rx_callback,
        hid_u2f_rx_callback, usbd_ep_read_packet, Channel.out_endpoint, Channel.slot]
        at hf hs ⊢ <;>
      rw [hf, hs] <;>
      split <;> (try split) <;> rfl

/-- C10 witness: with a callback registered only on the debug-link channel, a
10-byte packet on the U2F OUT endpoint is read by `hid_u2f_rx_callback` and no
callback is called. -/
theorem channel_isolation_witness :
    (packet_arrives ⟨true, true⟩ u2f_packet_fifo ⟨0, []⟩ debug_only_driver
        ENDPOINT_ADDRESS_U2F_OUT).calls = [] ∧
    (packet_arrives ⟨true, true⟩ u2f_packet_fifo ⟨0, []⟩ debug_only_driver
        ENDPOINT_ADDRESS_U2F_OUT).reads = [ENDPOINT_ADDRESS_U2F_OUT] ∧
    bound_handler (hid_set_config_callback ⟨true, true⟩ debug_only_driver 1).ep_setups
        ENDPOINT_ADDRESS_U2F_OUT = some .hid_u2f_rx_callback :=
  have h := channel_isolation ⟨true, true⟩ .u2f .debug_link (by decide) rfl debug_only_driver
    u2f_packet_fifo ⟨0, []⟩ 1 ENDPOINT_ADDRESS_U2F_OUT
  ⟨by decide, by decide, h.1⟩

/-- An evaluation of the debug-link handler: a 10-byte packet with a callback
registered makes one call with `len = 10`. -/
theorem hid_debug_rx_callback_example :
    (hid_debug_rx_callback (fun _ => List.replicate 10 1) ⟨0, []⟩ debug_only_driver 2).calls
      = [⟨.debug_link, 7, ⟨10, List.replicate 10 1⟩⟩] := by
  decide

/-! ## The transmit loops under arbitrary hardware responses -/

theorem acc_count_rejected (hw : Nat → Nat) (N : Nat) :
    ∀ t, (∀ i, i < t → hw (N + i) = 0) → acc_count hw (N + t) = acc_count hw N := by
  intro t
  induction t with
  | zero => intro _; rfl
  | succ t ih =>
    intro h
    rw [← Nat.add_assoc, acc_count, ih (fun i hi => h i (Nat.lt_succ_of_lt hi)),
      if_pos (h t (Nat.lt_succ_self t)), Nat.add_zero]

theorem acc_count_accepted (hw : Nat → Nat) (n : Nat) (h : hw n ≠ 0) :
    acc_count hw (n + 1) = acc_count hw n + 1 := by
  rw [acc_count, if_neg h]

/-- The busy-wait under arbitrary responses: it makes `t ≤ fuel` calls with the
same packet, all but the last rejected; it is left after an accepted call, or
the fuel is used up on rejected calls. -/
theorem write_until_accepted_spec (hw : Nat → Nat) (dev : Option Nat) (ep : Nat)
    (buf : List Byte) :
    ∀ (fuel : Nat) (log : List TxWrite), ∃ t, t ≤ fuel ∧
      (write_until_accepted hw dev ep buf fuel log).2
        = log ++ (List.range t).map
            (fun i => (⟨dev, ep, buf.take USB_SEGMENT_SIZE, hw (log.length + i)⟩ : TxWrite)) ∧
      (∀ i, i + 1 < t → hw (log.length + i) = 0) ∧
      (((write_until_accepted hw dev ep buf fuel log).1 = true ∧ 0 < t ∧
          hw (log.length + (t - 1)) ≠ 0) ∨
       ((write_until_accepted hw dev ep buf fuel log).1 = false ∧ t = fuel ∧
          ∀ i, i < t → hw (log.length + i) = 0)) := by
  intro fuel
  induction fuel with
  | zero =>
    intro log
    exact ⟨0, le_refl _, by simp [write_until_accepted], fun i hi => absurd hi (by omega),
      Or.inr ⟨rfl, rfl, fun i hi => absurd hi (by omega)⟩⟩
  | succ fuel ih =>
    intro log
    by_cases h : hw log.length = 0
    · obtain ⟨t, ht, hlog, hrej, hres⟩ :=
        ih (log ++ [⟨dev, ep, buf.take USB_SEGMENT_SIZE, hw log.length⟩])
      have hstep : write_until_accepted hw dev ep buf (fuel + 1) log
          = write_until_accepted hw dev ep buf fuel
              (log ++ [⟨dev, ep, buf.take USB_SEGMENT_SIZE, hw log.length⟩]) := by
        rw [write_until_accepted]
        simp only [h, if_true]
      have hlen : (log ++ [(⟨dev, ep, buf.take USB_SEGMENT_SIZE, hw log.length⟩ : TxWrite)]).length
          = log.length + 1 := by simp
      rw [hlen] at hlog hrej hres
      have hz : ∀ i, i < t + 1 → (i = 0 ∨ ∃ i2, i = i2 + 1 ∧ i2 < t) := by
        intro i hi
        cases i with
        | zero => exact Or.inl rfl
        | succ i2 => exact Or.inr ⟨i2, rfl, by omega⟩
      refine ⟨t + 1, by omega, ?_, ?_, ?_⟩
      · rw [hstep, hlog, range_succ_map_shift, List.append_assoc]
        simp [Nat.add_assoc, Nat.add_comm 1]
      · intro i hi
        rcases hz i (by omega) with rfl | ⟨i2, rfl, _⟩
        · exact h
        · have := hrej i2 (by omega)
          rwa [Nat.add_assoc, Nat.add_comm 1 i2] at this
      · rw [hstep]
        rcases hres with ⟨h1, h2, h3⟩ | ⟨h1, h2, h3⟩
        · left
          refine ⟨h1, by omega, ?_⟩
          have e : log.length + (t + 1 - 1) = log.length + 1 + (t - 1) := by omega
          rw [e]; exact h3
        · right
          refine ⟨h1, by omega, ?_⟩
          intro i hi
          rcases hz i hi with rfl | ⟨i2, rfl, hi2⟩
          · exact h
          · have := h3 i2 hi2
            rwa [Nat.add_assoc, Nat.add_comm 1 i2] at this
    · refine ⟨1, by omega, ?_, fun i hi => absurd hi (by omega), Or.inl ⟨?_, by omega, h⟩⟩
      · rw [write_until_accepted]
        simp [h, List.range_succ]
      · rw [write_until_accepted]
        simp [h]

theorem chunk_pos_succ (start step k : Nat) :
    (chunk_pos start step k + step) % UINT32_MOD = chunk_pos start step (k + 1) := by
  simp only [chunk_pos, Nat.mod_add_mod, Nat.mul_succ, Nat.add_assoc]

/-- Any run of a chunking loop, whatever the hardware answers: entered in
iteration `j` with a log of the calls made so far, it leaves a log in which the
`n`-th call carries the packet of the iteration numbered by the writes accepted
before it; every iteration completed was entered below `len`; the loop never
returns `false`, and when it returns `true` the offset has reached `len` and
the last call was accepted. -/
theorem chunk_loop_spec (hw : Nat → Nat) (dev : Option Nat) (pkt : Nat → List Byte)
    (start step len ep : Nat) :
    ∀ (fuel j : Nat) (log : List TxWrite),
      log = (List.range log.length).map (chunk_attempt hw dev pkt start step ep) →
      acc_count hw log.length = j →
      (∀ k, k < j → chunk_pos start step k < len) →
      (log.length = 0 ∨ hw (log.length - 1) ≠ 0) →
      ∃ T, log.length ≤ T ∧
        (chunk_loop hw dev pkt step len ep fuel (chunk_pos start step j) log).log
          = (List.range T).map (chunk_attempt hw dev pkt start step ep) ∧
        (∀ k, k < acc_count hw T → chunk_pos start step k < len) ∧
        ((chunk_loop hw dev pkt step len ep fuel (chunk_pos start step j) log).ret = none ∨
         ((chunk_loop hw dev pkt step len ep fuel (chunk_pos start step j) log).ret = some true ∧
          ¬ chunk_pos start step (acc_count hw T) < len ∧ (T = 0 ∨ hw (T - 1) ≠ 0))) := by
  intro fuel
  induction fuel with
  | zero =>
    intro j log hlog hj hbelow hlast
    refine ⟨log.length, le_refl _, ?_, by rw [hj]; exact hbelow, ?_⟩
    · by_cases h : chunk_pos start step j < len <;> simp only [chunk_loop, h, if_true, if_false]
        <;> exact hlog
    · by_cases h : chunk_pos start step j < len
      · left; simp only [chunk_loop, h, if_true]
      · right
        refine ⟨by simp only [chunk_loop, h, if_false], by rw [hj]; exact h, hlast⟩
  | succ fuel ih =>
    intro j log hlog hj hbelow hlast
    by_cases h : chunk_pos start step j < len
    · obtain ⟨t, ht, hlog1, hrej, hres⟩ :=
        write_until_accepted_spec hw dev ep (pkt (chunk_pos start step j)) (fuel + 1) log
      have hatt : ∀ i, i < t →
          (⟨dev, ep, (pkt (chunk_pos start step j)).take USB_SEGMENT_SIZE,
            hw (log.length + i)⟩ : TxWrite)
            = chunk_attempt hw dev pkt start step ep (log.length + i) := by
        intro i hi
        rw [chunk_attempt, acc_count_rejected hw log.length i
          (fun i2 hi2 => hrej i2 (by omega)), hj]
      have hlog2 : (write_until_accepted hw dev ep (pkt (chunk_pos start step j)) (fuel + 1)
            log).2 = (List.range (log.length + t)).map (chunk_attempt hw dev pkt start step ep) := by
        rw [hlog1, List.range_add, List.map_append, List.map_map, ← hlog]
        congr 1
        apply List.map_congr_left
        intro i hi
        exact hatt i (List.mem_range.mp hi)
      rcases hres with ⟨hok, htpos, hacc⟩ | ⟨hok, _, hall⟩
      · -- the packet was accepted: the loop goes on with the next offset
        have hcount : acc_count hw (log.length + t) = j + 1 := by
          have e : log.length + t = log.length + (t - 1) + 1 := by omega
          rw [e, acc_count_accepted hw _ hacc,
            acc_count_rejected hw log.length (t - 1) (fun i hi => hrej i (by omega)), hj]
        have hstep : chunk_loop hw dev pkt step len ep (fuel + 1) (chunk_pos start step j) log
            = chunk_loop hw dev pkt step len ep fuel (chunk_pos start step (j + 1))
                (write_until_accepted hw dev ep (pkt (chunk_pos start step j)) (fuel + 1) log).2 := by
          rw [chunk_loop, if_pos h]
          generalize hw2 : write_until_accepted hw dev ep (pkt (chunk_pos start step j))
            (fuel + 1) log = res at hok
          rcases res with ⟨ok, log1⟩
          simp only at hok
          subst hok
          simp only [chunk_pos_succ]
        have hlen2 : ((write_until_accepted hw dev ep (pkt (chunk_pos start step j)) (fuel + 1)
            log).2).length = log.length + t := by
          rw [hlog2, List.length_map, List.length_range]
        obtain ⟨T, hT, hTlog, hTbelow, hTret⟩ := ih (j + 1)
          (write_until_accepted hw dev ep (pkt (chunk_pos start step j)) (fuel + 1) log).2
          (by rw [hlen2]; exact hlog2)
          (by rw [hlen2]; exact hcount)
          (by
            intro k hk
            rcases Nat.lt_succ_iff_lt_or_eq.mp hk with hk1 | rfl
            · exact hbelow k hk1
            · exact h)
          (by
            rw [hlen2]
            right
            have e : log.length + t - 1 = log.length + (t - 1) := by omega
            rw [e]; exact hacc)
        rw [hlen2] at hT
        refine ⟨T, by omega, ?_, hTbelow, ?_⟩
        · rw [hstep]; exact hTlog
        · rw [hstep]; exact hTret
      · -- the fuel ran out while the packet was still rejected
        have hret : chunk_loop hw dev pkt step len ep (fuel + 1) (chunk_pos start step j) log
            = ⟨none, (write_until_accepted hw dev ep (pkt (chunk_pos start step j)) (fuel + 1)
                log).2⟩ := by
          rw [chunk_loop, if_pos h]
          generalize hw2 : write_until_accepted hw dev ep (pkt (chunk_pos start step j))
            (fuel + 1) log = res at hok
          rcases res with ⟨ok, log1⟩
          simp only at hok
          subst hok
          rfl
        refine ⟨log.length + t, by omega, ?_, ?_, Or.inl ?_⟩
        · rw [hret]; exact hlog2
        · rw [acc_count_rejected hw log.length t hall, hj]; exact hbelow
        · rw [hret]
    · refine ⟨log.length, le_refl _, ?_, by rw [hj]; exact hbelow, Or.inr ⟨?_, by rw [hj]; exact h, hlast⟩⟩
      · rw [chunk_loop, if_neg h]; exact hlog
      · rw [chunk_loop, if_neg h]

theorem acc_count_mono (hw : Nat → Nat) (n : Nat) : ∀ d, acc_count hw n ≤ acc_count hw (n + d) := by
  intro d
  induction d with
  | zero => exact le_refl _
  | succ d ih =>
    rw [← Nat.add_assoc, acc_count]
    omega

/-- The packets accepted among the first `T` calls are the packets of the
iterations `0, ..., acc_count hw T - 1`, once each, in order. -/
theorem accepted_attempts (hw : Nat → Nat) (dev : Option Nat) (pkt : Nat → List Byte)
    (start step ep : Nat) :
    ∀ T, packets (accepted ((List.range T).map (chunk_attempt hw dev pkt start step ep)))
      = (List.range (acc_count hw T)).map
          (fun k => (pkt (chunk_pos start step k)).take USB_SEGMENT_SIZE) := by
  intro T
  induction T with
  | zero => rfl
  | succ T ih =>
    rw [List.range_succ, List.map_append, accepted, List.filter_append, packets,
      List.map_append]
    rw [accepted, packets] at ih
    rw [ih, acc_count]
    by_cases h : hw T = 0
    · simp [h, chunk_attempt]
    · simp [h, chunk_attempt, List.range_succ]

/-- A busy-wait that meets an accepting call returns, with a log that does not
depend on the fuel left over. -/
theorem write_until_accepted_returns (hw : Nat → Nat) (dev : Option Nat) (ep : Nat)
    (buf : List Byte) :
    ∀ (d : Nat) (log : List TxWrite), hw (log.length + d) ≠ 0 →
      ∃ t log1, ∀ fuel, t ≤ fuel →
        write_until_accepted hw dev ep buf fuel log = (true, log1) := by
  intro d
  induction d with
  | zero =>
    intro log h
    refine ⟨1, log ++ [⟨dev, ep, buf.take USB_SEGMENT_SIZE, hw log.length⟩], ?_⟩
    intro fuel hf
    obtain ⟨f, rfl⟩ := Nat.exists_eq_add_of_le hf
    rw [Nat.add_comm 1 f, write_until_accepted]
    simp only [Nat.add_zero] at h
    simp [h]
  | succ d ih =>
    intro log h
    by_cases h0 : hw log.length = 0
    · obtain ⟨t, log1, ht⟩ := ih (log ++ [⟨dev, ep, buf.take USB_SEGMENT_SIZE, hw log.length⟩])
        (by simpa [Nat.add_assoc, Nat.add_comm 1 d] using h)
      refine ⟨t + 1, log1, ?_⟩
      intro fuel hf
      obtain ⟨f, rfl⟩ := Nat.exists_eq_add_of_le hf
      have e : t + 1 + f = (t + f) + 1 := by omega
      rw [e, write_until_accepted]
      rw [if_pos h0]
      exact ht (t + f) (by omega)
    · refine ⟨1, log ++ [⟨dev, ep, buf.take USB_SEGMENT_SIZE, hw log.length⟩], ?_⟩
      intro fuel hf
      obtain ⟨f, rfl⟩ := Nat.exists_eq_add_of_le hf
      rw [Nat.add_comm 1 f, write_until_accepted]
      simp [h0]

/-- A chunking loop whose offset reaches `len` after finitely many iterations
returns `true` on enough fuel, if the hardware accepts a write again and again. -/
theorem chunk_loop_returns (hw : Nat → Nat) (hfin : ∀ k, ∃ n, k ≤ n ∧ hw n ≠ 0)
    (dev : Option Nat) (pkt : Nat → List Byte) (start step len ep : Nat) :
    ∀ (d j : Nat) (log : List TxWrite), ¬ chunk_pos start step (j + d) < len →
      ∃ fuel0, ∀ fuel, fuel0 ≤ fuel →
        (chunk_loop hw dev pkt step len ep fuel (chunk_pos start step j) log).ret
          = some true := by
  intro d
  induction d with
  | zero =>
    intro j log h
    refine ⟨0, fun fuel _ => ?_⟩
    cases fuel <;> simp only [chunk_loop, show ¬ chunk_pos start step j < len from h, if_false]
  | succ d ih =>
    intro j log h
    by_cases hj : chunk_pos start step j < len
    · obtain ⟨n, hn, hacc⟩ := hfin log.length
      obtain ⟨e, rfl⟩ := Nat.exists_eq_add_of_le hn
      obtain ⟨t, log1, ht⟩ :=
        write_until_accepted_returns hw dev ep (pkt (chunk_pos start step j)) e log hacc
      obtain ⟨f1, hf1⟩ := ih (j + 1) log1
        (by rwa [Nat.add_assoc, Nat.add_comm 1 d])
      refine ⟨max t (f1 + 1), ?_⟩
      intro fuel hfuel
      obtain ⟨f, rfl⟩ : ∃ f, fuel = f + 1 := ⟨fuel - 1, by omega⟩
      rw [chunk_loop, if_pos hj, ht (f + 1) (by omega)]
      simp only [chunk_pos_succ]
      exact hf1 f (by omega)
    · refine ⟨0, fun fuel _ => ?_⟩
      cases fuel <;> simp only [chunk_loop, hj, if_false]

theorem helper_tmp_buffer_eq (message : Nat → Byte) (pos : Nat) :
    memcpy ((List.replicate USB_SEGMENT_SIZE 0).set 0 0x3F) 1 (fun i => message (pos + i))
        (USB_SEGMENT_SIZE - 1) = helper_packet message pos := by
  rfl

theorem raw_tmp_buffer_eq (message : Nat → Byte) (pos : Nat) :
    memcpy (List.replicate USB_SEGMENT_SIZE 0) 0 (fun i => message (pos + i)) USB_SEGMENT_SIZE
      = raw_packet message pos := by
  rfl

/-- The loop of `usb_tx_helper` is the chunking loop with marker-prefixed packets
and step 63. -/
theorem usb_tx_helper_loop_eq (hw : Nat → Nat) (dev : Option Nat) (message : Nat → Byte)
    (len ep : Nat) :
    ∀ (fuel pos : Nat) (log : List TxWrite),
      usb_tx_helper_loop hw dev message len ep fuel pos log
        = chunk_loop hw dev (helper_packet message) 63 len ep fuel pos log := by
  intro fuel
  induction fuel with
  | zero => intro pos log; rfl
  | succ fuel ih =>
    intro pos log
    rw [usb_tx_helper_loop, chunk_loop]
    simp only [helper_tmp_buffer_eq, ih]
    rfl

/-- The loop of `usb_tx_helper_raw` is the chunking loop with verbatim packets
and step 64. -/
theorem usb_tx_helper_raw_loop_eq (hw : Nat → Nat) (dev : Option Nat) (message : Nat → Byte)
    (len ep : Nat) :
    ∀ (fuel pos : Nat) (log : List TxWrite),
      usb_tx_helper_raw_loop hw dev message len ep fuel pos log
        = chunk_loop hw dev (raw_packet message) 64 len ep fuel pos log := by
  intro fuel
  induction fuel with
  | zero => intro pos log; rfl
  | succ fuel ih =>
    intro pos log
    rw [usb_tx_helper_raw_loop, chunk_loop]
    simp only [raw_tmp_buffer_eq, ih]
    rfl

/-! ## C11, C12: ordering and termination under back-pressure -/

theorem acc_count_hw_ready : ∀ n, acc_count hw_ready n = n := by
  intro n
  induction n with
  | zero => rfl
  | succ n ih => rw [acc_count, ih]; rfl

theorem hw_ready_accepts : ∀ k, ∃ n, k ≤ n ∧ hw_ready n ≠ 0 :=
  fun k => ⟨k, le_refl k, Nat.succ_ne_zero 63⟩

/-- A finished run of a chunking loop: its calls are the attempts `0, ..., T - 1`,
the number of accepted ones is the number `c` of iterations, and the last call
was accepted. -/
theorem chunk_loop_finished (hw : Nat → Nat) (dev : Option Nat) (pkt : Nat → List Byte)
    (start step len ep c fuel : Nat) (hbelow : ∀ k, k < c → chunk_pos start step k < len)
    (hexit : ¬ chunk_pos start step c < len)
    (hret : (chunk_loop hw dev pkt step len ep fuel (chunk_pos start step 0) []).ret
      = some true) :
    ∃ T, (chunk_loop hw dev pkt step len ep fuel (chunk_pos start step 0) []).log
        = (List.range T).map (chunk_attempt hw dev pkt start step ep) ∧
      acc_count hw T = c ∧ (T = 0 ∨ hw (T - 1) ≠ 0) := by
  obtain ⟨T, _, hlog, hb, hr⟩ := chunk_loop_spec hw dev pkt start step len ep fuel 0 []
    rfl rfl (fun k hk => absurd hk (Nat.not_lt_zero k)) (Or.inl rfl)
  rcases hr with hn | ⟨_, hex, hlast⟩
  · rw [hn] at hret; exact absurd hret (by simp)
  · refine ⟨T, hlog, ?_, hlast⟩
    rcases Nat.lt_trichotomy (acc_count hw T) c with h | h | h
    · exact absurd (hbelow _ h) hex
    · exact h
    · exact absurd (hb c h) hexit

/-- Ordering under back-pressure for a chunking loop with `c` iterations. -/
theorem chunk_loop_ordered (hw : Nat → Nat) (hfin : ∀ k, ∃ n, k ≤ n ∧ hw n ≠ 0)
    (dev : Option Nat) (pkt : Nat → List Byte) (start step len ep c : Nat)
    (h64 : ∀ p, (pkt p).length = 64)
    (hbelow : ∀ k, k < c → chunk_pos start step k < len)
    (hexit : ¬ chunk_pos start step c < len) :
    ∃ fuel0, ∀ fuel, fuel0 ≤ fuel →
      ordered_under_back_pressure hw dev ep (fun k => pkt (chunk_pos start step k)) c
        (chunk_loop hw dev pkt step len ep fuel (chunk_pos start step 0) [])
        (chunk_loop hw_ready dev pkt step len ep fuel (chunk_pos start step 0) []) := by
  have htake : ∀ p, (pkt p).take USB_SEGMENT_SIZE = pkt p := fun p =>
    List.take_of_length_le (by rw [h64 p]; exact le_refl 64)
  obtain ⟨fa, hfa⟩ := chunk_loop_returns hw hfin dev pkt start step len ep c 0 []
    (by rwa [Nat.zero_add])
  obtain ⟨fb, hfb⟩ := chunk_loop_returns hw_ready hw_ready_accepts dev pkt start step len ep c 0 []
    (by rwa [Nat.zero_add])
  refine ⟨max fa fb, ?_⟩
  intro fuel hfuel
  have hra := hfa fuel (by omega)
  have hrb := hfb fuel (by omega)
  obtain ⟨T, hlog, hacc, hlast⟩ :=
    chunk_loop_finished hw dev pkt start step len ep c fuel hbelow hexit hra
  obtain ⟨T2, hlog2, hacc2, _⟩ :=
    chunk_loop_finished hw_ready dev pkt start step len ep c fuel hbelow hexit hrb
  rw [acc_count_hw_ready] at hacc2
  have hideal : packets (chunk_loop hw_ready dev pkt step len ep fuel
      (chunk_pos start step 0) []).log = (List.range c).map (fun k => pkt (chunk_pos start step k)) := by
    rw [hlog2, hacc2, packets, List.map_map]
    apply List.map_congr_left
    intro k _
    simp only [Function.comp_apply, chunk_attempt, acc_count_hw_ready, htake]
  have hentry : ∀ n w, (chunk_loop hw dev pkt step len ep fuel (chunk_pos start step 0) []).log[n]?
      = some w → n < T ∧ w = ⟨dev, ep, pkt (chunk_pos start step (acc_count hw n)), hw n⟩ := by
    intro n w hn
    rw [hlog, List.getElem?_map] at hn
    by_cases hlt : n < T
    · rw [List.getElem?_range hlt] at hn
      simp only [Option.map_some', Option.some.injEq] at hn
      refine ⟨hlt, ?_⟩
      rw [← hn, chunk_attempt, htake]
    · rw [List.getElem?_eq_none (by simpa using hlt)] at hn
      simp at hn
  refine ⟨hra, hrb, ?_, hideal, fun n w hn => (hentry n w hn).2, ?_⟩
  · rw [hideal, hlog, accepted_attempts, hacc]
    apply List.map_congr_left
    intro k _
    exact htake _
  · intro n w hn hrej
    obtain ⟨hnT, rfl⟩ := hentry n w hn
    simp only at hrej
    have hn1 : n + 1 < T := by
      rcases hlast with h0 | hl
      · omega
      · by_contra hc
        have : n = T - 1 := by omega
        rw [this] at hrej
        exact hl hrej
    refine ⟨chunk_attempt hw dev pkt start step ep (n + 1), ?_, ?_, rfl, h64 _⟩
    · rw [hlog, List.getElem?_map, List.getElem?_range hn1]
      rfl
    · simp only [chunk_attempt, acc_count, hrej, if_true, Nat.add_zero, htake]

theorem usb_tx_helper_eq_chunk (hw : Nat → Nat) (dev : Option Nat) (message : Nat → Byte)
    (len ep fuel : Nat) :
    usb_tx_helper hw dev message len ep fuel
      = chunk_loop hw dev (helper_packet message) 63 len ep fuel (chunk_pos 1 63 0) [] := by
  rw [usb_tx_helper, usb_tx_helper_loop_eq]
  rfl

theorem usb_tx_helper_raw_eq_chunk (hw : Nat → Nat) (dev : Option Nat) (message : Nat → Byte)
    (len ep fuel : Nat) :
    usb_tx_helper_raw hw dev message len ep fuel
      = chunk_loop hw dev (raw_packet message) 64 len ep fuel (chunk_pos 0 64 0) [] := by
  rw [usb_tx_helper_raw, usb_tx_helper_raw_loop_eq]
  rfl

theorem chunk_pos_raw (k : Nat) : chunk_pos 0 64 k = raw_pos k := by
  simp only [chunk_pos, raw_pos, Nat.zero_add]

theorem helper_packet_length (message : Nat → Byte) (p : Nat) :
    (helper_packet message p).length = 64 := by
  simp [helper_packet, slice_length]

theorem raw_packet_length (message : Nat → Byte) (p : Nat) :
    (raw_packet message p).length = 64 := by
  simp [raw_packet, slice_length]

/-- For every 32-bit `len` the offset of `usb_tx_helper` reaches `len`: 63 is
invertible modulo `2^32`, and iteration 2181570690 is at offset `2^32 - 1`. The
first such iteration is `ceil((len-1)/63)` when `len ≤ 2^32 - 3`. -/
theorem helper_exit_exists (len : Nat) (h32 : len < 4294967296) :
    ∃ c, (∀ k, k < c → helper_pos k < len) ∧ ¬ helper_pos c < len ∧
      (len ≤ 4294967293 → c = ceil_div (len - 1) 63) := by
  have hex : ∃ K, ¬ helper_pos K < len := by
    refine ⟨2181570690, ?_⟩
    have h : helper_pos 2181570690 = 4294967295 := by decide
    omega
  refine ⟨Nat.find hex, ?_, Nat.find_spec hex, ?_⟩
  · intro k hk
    exact not_not.mp (Nat.find_min hex hk)
  · intro hlen
    apply Nat.le_antisymm
    · exact Nat.find_le (helper_pos_at_ceil len hlen)
    · by_contra hlt
      exact Nat.find_spec hex (helper_pos_below_ceil len _ h32 (Nat.lt_of_not_le hlt)).2

theorem raw_exit (len : Nat) (hlen : len ≤ 4294967232) :
    (∀ k, k < ceil_div len 64 → raw_pos k < len) ∧ ¬ raw_pos (ceil_div len 64) < len :=
  ⟨fun k hk => (raw_pos_below_ceil len k (by omega) hk).2, raw_pos_at_ceil len hlen⟩

/-- A chunking loop never returns `false`. -/
theorem chunk_loop_never_false (hw : Nat → Nat) (dev : Option Nat) (pkt : Nat → List Byte)
    (start step len ep fuel : Nat) :
    (chunk_loop hw dev pkt step len ep fuel (chunk_pos start step 0) []).ret ≠ some false := by
  obtain ⟨T, _, _, _, hr⟩ := chunk_loop_spec hw dev pkt start step len ep fuel 0 []
    rfl rfl (fun k hk => absurd hk (Nat.not_lt_zero k)) (Or.inl rfl)
  rcases hr with h | ⟨h, _⟩ <;> rw [h] <;> simp

/-- Ordering under back-pressure for transmissions that end: if the hardware
accepts a write again and again, a transmission on enough fuel returns, the
packets accepted are the packets written when no write is rejected, the `n`-th
write carries the packet whose number is the number of writes accepted before
it, and every rejected write is followed by a write of the same 64-byte packet to
the same endpoint; where the offset cannot wrap, packet `k` is built at source
offset `1 + 63 k`, respectively `64 k`. -/
theorem tx_ordered_when_returning (hw : Nat → Nat) (hfin : ∀ k, ∃ n, k ≤ n ∧ hw n ≠ 0)
    (dev : Option Nat) (message : Nat → Byte) (len ep : Nat) (h32 : len < 4294967296) :
    (∃ c fuel0, (∀ k, k < c → helper_pos k < len) ∧ ¬ helper_pos c < len ∧
      ∀ fuel, fuel0 ≤ fuel →
        ordered_under_back_pressure hw dev ep (fun k => helper_packet message (helper_pos k)) c
          (usb_tx_helper hw dev message len ep fuel)
          (usb_tx_helper hw_ready dev message len ep fuel)) ∧
    (len ≤ 4294967293 →
      (∃ fuel0, ∀ fuel, fuel0 ≤ fuel →
        ordered_under_back_pressure hw dev ep (fun k => helper_packet message (helper_pos k))
          (ceil_div (len - 1) 63)
          (usb_tx_helper hw dev message len ep fuel)
          (usb_tx_helper hw_ready dev message len ep fuel)) ∧
      (∀ k, k ≤ ceil_div (len - 1) 63 → helper_pos k = 1 + 63 * k)) ∧
    (len ≤ 4294967232 →
      (∃ fuel0, ∀ fuel, fuel0 ≤ fuel →
        ordered_under_back_pressure hw dev ep (fun k => raw_packet message (raw_pos k))
          (ceil_div len 64)
          (usb_tx_helper_raw hw dev message len ep fuel)
          (usb_tx_helper_raw hw_ready dev message len ep fuel)) ∧
      (∀ k, k ≤ ceil_div len 64 → raw_pos k = 64 * k)) := by
  have hhelper : ∀ c, (∀ k, k < c → helper_pos k < len) → ¬ helper_pos c < len →
      ∃ fuel0, ∀ fuel, fuel0 ≤ fuel →
        ordered_under_back_pressure hw dev ep (fun k => helper_packet message (helper_pos k)) c
          (usb_tx_helper hw dev message len ep fuel)
          (usb_tx_helper hw_ready dev message len ep fuel) := by
    intro c hb he
    obtain ⟨fuel0, h⟩ := chunk_loop_ordered hw hfin dev (helper_packet message) 1 63 len ep c
      (helper_packet_length message) hb he
    refine ⟨fuel0, fun fuel hf => ?_⟩
    rw [usb_tx_helper_eq_chunk, usb_tx_helper_eq_chunk]
    exact h fuel hf
  refine ⟨?_, ?_, ?_⟩
  · obtain ⟨c, hb, he, _⟩ := helper_exit_exists len h32
    obtain ⟨fuel0, h⟩ := hhelper c hb he
    exact ⟨c, fuel0, hb, he, h⟩
  · intro hlen
    refine ⟨hhelper _ (fun k hk => (helper_pos_below_ceil len k h32 hk).2)
      (helper_pos_at_ceil len hlen), ?_⟩
    intro k hk
    simp only [helper_pos, ceil_div, UINT32_MOD] at hk ⊢
    omega
  · intro hlen
    obtain ⟨hb, he⟩ := raw_exit len hlen
    obtain ⟨fuel0, h⟩ := chunk_loop_ordered hw hfin dev (raw_packet message) 0 64 len ep
      (ceil_div len 64) (raw_packet_length message)
      (fun k hk => by rw [chunk_pos_raw]; exact hb k hk) (by rw [chunk_pos_raw]; exact he)
    refine ⟨⟨fuel0, fun fuel hf => ?_⟩, ?_⟩
    · rw [usb_tx_helper_raw_eq_chunk, usb_tx_helper_raw_eq_chunk]
      have := h fuel hf
      simp only [chunk_pos_raw] at this
      exact this
    · intro k hk
      simp only [raw_pos, ceil_div, UINT32_MOD] at hk ⊢
      omega

/-- C12 (amended): if the hardware accepts a write again and again, then for
every source buffer `usb_tx_helper` (behind `usb_tx` and `usb_debug_tx`) returns
`true` on enough fuel for every 32-bit `len`, and `usb_tx_helper_raw` (behind
`usb_u2f_tx`) returns `true` on enough fuel for every `len ≤ 2^32 - 64`; on no
input and no fuel does either return `false`. -/
theorem tx_returns_true (hw : Nat → Nat) (hfin : ∀ k, ∃ n, k ≤ n ∧ hw n ≠ 0)
    (dev : Option Nat) (message : Nat → Byte) (len ep : Nat) (h32 : len < 4294967296) :
    (∃ fuel0, ∀ fuel, fuel0 ≤ fuel →
      (usb_tx_helper hw dev message len ep fuel).ret = some true) ∧
    (len ≤ 4294967232 → ∃ fuel0, ∀ fuel, fuel0 ≤ fuel →
      (usb_tx_helper_raw hw dev message len ep fuel).ret = some true) ∧
    (∀ fuel, (usb_tx_helper hw dev message len ep fuel).ret ≠ some false ∧
      (usb_tx_helper_raw hw dev message len ep fuel).ret ≠ some false) := by
  refine ⟨?_, ?_, ?_⟩
  · obtain ⟨c, _, he, _⟩ := helper_exit_exists len h32
    obtain ⟨fuel0, h⟩ := chunk_loop_returns hw hfin dev (helper_packet message) 1 63 len ep c 0 []
      (by rw [Nat.zero_add]; exact he)
    refine ⟨fuel0, fun fuel hf => ?_⟩
    rw [usb_tx_helper_eq_chunk]
    exact h fuel hf
  · intro hlen
    obtain ⟨fuel0, h⟩ := chunk_loop_returns hw hfin dev (raw_packet message) 0 64 len ep
      (ceil_div len 64) 0 [] (by rw [Nat.zero_add, chunk_pos_raw]; exact (raw_exit len hlen).2)
    refine ⟨fuel0, fun fuel hf => ?_⟩
    rw [usb_tx_helper_raw_eq_chunk]
    exact h fuel hf
  · intro fuel
    rw [usb_tx_helper_eq_chunk, usb_tx_helper_raw_eq_chunk]
    exact ⟨chunk_loop_never_false _ _ _ _ _ _ _ _, chunk_loop_never_false _ _ _ _ _ _ _ _⟩

theorem hw_busy_once_accepts : ∀ k, ∃ n, k ≤ n ∧ hw_busy_once n ≠ 0 := by
  intro k
  refine ⟨2 * k + 1, by omega, ?_⟩
  unfold hw_busy_once
  rw [if_neg (by omega)]
  decide

/-- C11 counterexample: with `len = 2^32 - 1` and hardware that accepts every
write, the packet accepted after the one built at source offset 4294967293 is
the one built at source offset 60: the offsets do not increase. -/
theorem usb_tx_offsets_wrap :
    (usb_tx hw_ready (some 1) (sample_message 4294967295) 4294967295 68174086).log[68174084]?
      = some ⟨some 1, ENDPOINT_ADDRESS_IN,
          helper_packet (sample_message 4294967295) 4294967293, 64⟩ ∧
    (usb_tx hw_ready (some 1) (sample_message 4294967295) 4294967295 68174086).log[68174085]?
      = some ⟨some 1, ENDPOINT_ADDRESS_IN, helper_packet (sample_message 4294967295) 60, 64⟩ := by
  obtain ⟨m, hm, hpos, hlog, hret⟩ := usb_tx_helper_ready hw_ready
    (fun _ => Nat.succ_ne_zero 63) (some 1) (sample_message 4294967295) 4294967295
    ENDPOINT_ADDRESS_IN 68174086
  have hm2 : m = 68174086 := by
    rcases hret with ⟨h1, _, _⟩ | ⟨h2, _⟩
    · exact h1
    · exfalso
      apply h2
      simp only [helper_pos, UINT32_MOD]
      omega
  have ha : helper_pos 68174084 = 4294967293 := by decide
  have hb : helper_pos 68174085 = 60 := by decide
  constructor
  · show (usb_tx_helper hw_ready (some 1) (sample_message 4294967295) 4294967295
      ENDPOINT_ADDRESS_IN 68174086).log[68174084]? = _
    rw [hlog, hm2, List.getElem?_map, List.getElem?_range (by decide)]
    simp only [Option.map_some', helper_write, ha]
    rfl
  · show (usb_tx_helper hw_ready (some 1) (sample_message 4294967295) 4294967295
      ENDPOINT_ADDRESS_IN 68174086).log[68174085]? = _
    rw [hlog, hm2, List.getElem?_map, List.getElem?_range (by decide)]
    simp only [Option.map_some', helper_write, hb]
    rfl

/-- C12 witness: with hardware that rejects every write once, 130 bytes on the
normal channel and 100 bytes on the U2F channel are sent and `true` is
returned. -/
theorem tx_returns_true_witness :
    (∃ fuel0, ∀ fuel, fuel0 ≤ fuel →
      (usb_tx_helper hw_busy_once (some 1) (sample_message 130) 130 ENDPOINT_ADDRESS_IN
        fuel).ret = some true) ∧
    (usb_tx hw_busy_once (some 1) (sample_message 130) 130 4).ret = some true ∧
    (usb_u2f_tx hw_busy_once (some 1) (sample_message 100) 100 3).ret = some true :=
  ⟨(tx_returns_true hw_busy_once hw_busy_once_accepts (some 1) (sample_message 130) 130
      ENDPOINT_ADDRESS_IN (by decide)).1, by decide, by decide⟩

/-- C12 counterexample: with `len = 2^32 - 1` and hardware that accepts every
write, `usb_u2f_tx` returns on no fuel at all: every offset `64 k mod 2^32` is
below `len`, so the loop never ends. -/
theorem usb_u2f_tx_never_returns :
    ¬ ∃ fuel, (usb_u2f_tx hw_ready (some 1) (fun _ => 0) 4294967295 fuel).ret = some true := by
  rintro ⟨fuel, h⟩
  obtain ⟨m, _, _, _, hret⟩ := usb_tx_helper_raw_ready hw_ready
    (fun _ => Nat.succ_ne_zero 63) (some 1) (fun _ => 0) 4294967295 ENDPOINT_ADDRESS_U2F_IN fuel
  change (usb_tx_helper_raw hw_ready (some 1) (fun _ => 0) 4294967295 ENDPOINT_ADDRESS_U2F_IN
    fuel).ret = some true at h
  rcases hret with ⟨_, _, h3⟩ | ⟨h2, _⟩
  · rw [h3] at h
    exact absurd h (by simp)
  · apply h2
    simp only [raw_pos, UINT32_MOD]
    omega

/-! ## C13, C14: initialisation -/

/-- C13: in every state whose device handle is not `NULL`, `usb_init` returns
`true`, performs no hardware or library operation and leaves the whole state as
it was, so a second call leaves the state of the first; and from any state, once
a call of `usb_init` has returned `true`, the next call returns `true`, performs
no operation and changes nothing. -/
theorem usb_init_idempotent (uid uid2 : String) (r r2 : Option Nat) (s : UsbGlobals) :
    (s.driver.usbd_dev ≠ none → usb_init uid r s = ⟨true, s, []⟩) ∧
    (s.driver.usbd_dev ≠ none →
      (usb_init uid2 r2 (usb_init uid r s).state).state = (usb_init uid r s).state) ∧
    ((usb_init uid r s).ret = true →
      usb_init uid2 r2 (usb_init uid r s).state = ⟨true, (usb_init uid r s).state, []⟩) := by
  have h1 : ∀ (u : String) (q : Option Nat) (t : UsbGlobals), t.driver.usbd_dev ≠ none →
      usb_init u q t = ⟨true, t, []⟩ := by
    intro u q t ht
    rw [usb_init, if_neg ht]
  refine ⟨h1 uid r s, ?_, ?_⟩
  · intro hs
    rw [h1 uid r s hs, h1 uid2 r2 s hs]
  · intro hret
    apply h1
    by_cases hs : s.driver.usbd_dev = none
    · cases r with
      | none => simp [usb_init, hs] at hret
      | some dev => simp [usb_init, hs]
    · rw [h1 uid r s hs]; exact hs

/-- C14: from a state without handle, if `usbd_init` returns `NULL` then
`usb_init` returns `false`, the handle stays `NULL`, the set-configuration
callback is not registered, so a SET_CONFIGURATION binds no endpoint and leaves
the configured flag as it was; if `usbd_init` returns a handle, `usb_init` returns
`true`, stores the handle and registers `hid_set_config_callback`, which is then
what a SET_CONFIGURATION runs. From every state, the result is `true` exactly
when `get_usb_init_stat` afterwards is not `NULL`. -/
theorem usb_init_reports_failure (uid : String) (r : Option Nat) (s : UsbGlobals) (b : Build)
    (w : Nat) :
    (s.driver.usbd_dev = none → r = none →
      (usb_init uid r s).ret = false ∧
      get_usb_init_stat (usb_init uid r s).state = none ∧
      registers_set_config (usb_init uid r s).ops = false ∧
      usbd_set_configuration b (usb_init uid r s).ops (usb_init uid r s).state.driver w
        = ⟨(usb_init uid r s).state.driver, [], []⟩ ∧
      (usb_init uid r s).state.driver.usb_configured = s.driver.usb_configured) ∧
    (s.driver.usbd_dev = none → ∀ dev, r = some dev →
      (usb_init uid r s).ret = true ∧
      get_usb_init_stat (usb_init uid r s).state = some dev ∧
      (usb_init uid r s).ops = [.gpio_mode_setup, .gpio_set_af, .desig_get_unique_id_as_string,
        .usbd_init, .usbd_register_set_config_callback dev] ∧
      usbd_set_configuration b (usb_init uid r s).ops (usb_init uid r s).state.driver w
        = hid_set_config_callback b (usb_init uid r s).state.driver w) ∧
    ((usb_init uid r s).ret = true ↔ get_usb_init_stat (usb_init uid r s).state ≠ none) := by
  refine ⟨?_, ?_, ?_⟩
  · intro hs hr
    subst hr
    simp [usb_init, hs, get_usb_init_stat, registers_set_config, usbd_set_configuration]
  · intro hs dev hr
    subst hr
    simp [usb_init, hs, get_usb_init_stat, registers_set_config, usbd_set_configuration]
  · by_cases hs : s.driver.usbd_dev = none
    · cases r <;> simp [usb_init, hs, get_usb_init_stat]
    · simp [usb_init, hs, get_usb_init_stat]

/-- C14 witness: `usb_init` from the power-on state, with `usbd_init` failing and
with `usbd_init` returning the handle 5. -/
theorem usb_init_reports_failure_witness :
    (usb_init "0123" none power_on).ret = false ∧
    get_usb_init_stat (usb_init "0123" none power_on).state = none ∧
    (usb_init "0123" (some 5) power_on).ret = true ∧
    get_usb_init_stat (usb_init "0123" (some 5) power_on).state = some 5 :=
  have h := usb_init_reports_failure "0123" none power_on ⟨true, true⟩ 1
  have h2 := usb_init_reports_failure "0123" (some 5) power_on ⟨true, true⟩ 1
  ⟨(h.1 rfl rfl).1, (h.1 rfl rfl).2.1, (h2.2.1 rfl 5 rfl).1, (h2.2.1 rfl 5 rfl).2.1⟩

/-! ## C15: the interface table -/

/-- C15: in each of the four builds, `bNumInterfaces` of the configuration
descriptor is the number of entries of `ifaces`, which is
`1 + DEBUG_LINK + HAVE_U2F`; every entry has one alternate setting, the `k`-th
entry has `bInterfaceNumber = k`, the normal interface comes first, then the
debug-link interface if present, then the U2F interface if present; so the
interface numbers are distinct and are exactly `0, ..., bNumInterfaces - 1`. -/
theorem interface_table_consistent (b : Build) :
    (config b).bNumInterfaces = (ifaces b).length ∧
    (ifaces b).length = 1 + b.DEBUG_LINK.toNat + b.HAVE_U2F.toNat ∧
    (config b).interface = ifaces b ∧
    (∀ i ∈ ifaces b, i.num_altsetting = 1 ∧ i.altsetting.length = 1) ∧
    (ifaces b).map (fun i => i.altsetting.map (fun d => d.bInterfaceNumber))
      = (List.range (config b).bNumInterfaces).map (fun k => [k]) ∧
    (declared_interfaces b).map (fun d => d.bInterfaceNumber)
      = List.range (config b).bNumInterfaces ∧
    (ifaces b).map (fun i => i.altsetting)
      = [hid_iface] ++ (if b.DEBUG_LINK then [hid_iface_debug] else []) ++
          (if b.HAVE_U2F then [hid_iface_u2f b] else []) ∧
    ((declared_interfaces b).map (fun d => d.bInterfaceNumber)).Nodup := by
  rcases b with ⟨dl, u2f⟩
  cases dl <;> cases u2f
  all_goals
    refine ⟨rfl, rfl, rfl, ?_, rfl, rfl, rfl, ?_⟩
    · intro i hi
      simp only [ifaces, Bool.and_self, Bool.and_false, Bool.and_true, Bool.false_and,
        Bool.false_eq_true, if_true, if_false, List.mem_cons, List.mem_singleton,
        List.not_mem_nil, or_false] at hi
      rcases hi with rfl | rfl | rfl <;> exact ⟨rfl, rfl⟩
    · decide

/-! ## C2, C5, C11 under arbitrary hardware responses -/

/-- A chunking loop that has not returned has used all its fuel on calls. -/
theorem chunk_loop_log_length (hw : Nat → Nat) (dev : Option Nat) (pkt : Nat → List Byte)
    (step len ep : Nat) :
    ∀ (fuel pos : Nat) (log : List TxWrite),
      (chunk_loop hw dev pkt step len ep fuel pos log).ret = none →
      log.length + fuel ≤ (chunk_loop hw dev pkt step len ep fuel pos log).log.length := by
  intro fuel
  induction fuel with
  | zero =>
    intro pos log _
    by_cases h : pos < len <;> simp [chunk_loop, h]
  | succ fuel ih =>
    intro pos log hret
    by_cases h : pos < len
    · obtain ⟨t, _, hlog1, _, hres⟩ :=
        write_until_accepted_spec hw dev ep (pkt pos) (fuel + 1) log
      rw [chunk_loop, if_pos h] at hret ⊢
      generalize write_until_accepted hw dev ep (pkt pos) (fuel + 1) log = res
        at hret hlog1 hres ⊢
      rcases res with ⟨ok, log1⟩
      simp only at hlog1 hres
      have hlen1 : log1.length = log.length + t := by
        rw [hlog1, List.length_append, List.length_map, List.length_range]
      rcases hres with ⟨hok, htpos, _⟩ | ⟨hok, ht, _⟩
      · subst hok
        simp only at hret ⊢
        have := ih _ log1 hret
        omega
      · subst hok
        simp only at hret ⊢
        omega
    · rw [chunk_loop, if_neg h] at hret
      simp at hret

/-- Any run of a chunking loop from its start, whatever the hardware answers. -/
theorem chunk_loop_run (hw : Nat → Nat) (dev : Option Nat) (pkt : Nat → List Byte)
    (start step len ep fuel : Nat) :
    ∃ T, (chunk_loop hw dev pkt step len ep fuel (chunk_pos start step 0) []).log
        = (List.range T).map (chunk_attempt hw dev pkt start step ep) ∧
      (∀ k, k < acc_count hw T → chunk_pos start step k < len) ∧
      (((chunk_loop hw dev pkt step len ep fuel (chunk_pos start step 0) []).ret = none ∧
          fuel ≤ T) ∨
       ((chunk_loop hw dev pkt step len ep fuel (chunk_pos start step 0) []).ret = some true ∧
          ¬ chunk_pos start step (acc_count hw T) < len ∧ (T = 0 ∨ hw (T - 1) ≠ 0))) := by
  obtain ⟨T, _, hlog, hb, hr⟩ := chunk_loop_spec hw dev pkt start step len ep fuel 0 []
    rfl rfl (fun k hk => absurd hk (Nat.not_lt_zero k)) (Or.inl rfl)
  refine ⟨T, hlog, hb, ?_⟩
  rcases hr with hn | hs
  · left
    refine ⟨hn, ?_⟩
    have := chunk_loop_log_length hw dev pkt step len ep fuel (chunk_pos start step 0) [] hn
    rw [hlog, List.length_map, List.length_range] at this
    simpa using this
  · exact Or.inr hs

theorem accepted_attempts_length (hw : Nat → Nat) (dev : Option Nat) (pkt : Nat → List Byte)
    (start step ep T : Nat) :
    (accepted ((List.range T).map (chunk_attempt hw dev pkt start step ep))).length
      = acc_count hw T := by
  have h := congrArg List.length (accepted_attempts hw dev pkt start step ep T)
  rwa [packets, List.length_map, List.length_map, List.length_range] at h

/-- The discipline of a chunking loop under arbitrary hardware responses. -/
theorem chunk_loop_in_order (hw : Nat → Nat) (dev : Option Nat) (pkt : Nat → List Byte)
    (start step len ep fuel : Nat) (h64 : ∀ p, (pkt p).length = 64) :
    written_in_order hw dev ep (fun k => pkt (chunk_pos start step k)) fuel
      (chunk_loop hw dev pkt step len ep fuel (chunk_pos start step 0) [])
      (fun f => chunk_loop hw_ready dev pkt step len ep f (chunk_pos start step 0) []) := by
  have htake : ∀ p, (pkt p).take USB_SEGMENT_SIZE = pkt p := fun p =>
    List.take_of_length_le (by rw [h64 p]; exact le_refl 64)
  obtain ⟨T, hlog, hb, hr⟩ := chunk_loop_run hw dev pkt start step len ep fuel
  have hentry : ∀ n w, (chunk_loop hw dev pkt step len ep fuel (chunk_pos start step 0) []).log[n]?
      = some w → n < T ∧ w = ⟨dev, ep, pkt (chunk_pos start step (acc_count hw n)), hw n⟩ := by
    intro n w hn
    rw [hlog, List.getElem?_map] at hn
    by_cases hlt : n < T
    · rw [List.getElem?_range hlt] at hn
      simp only [Option.map_some', Option.some.injEq] at hn
      refine ⟨hlt, ?_⟩
      rw [← hn, chunk_attempt, htake]
    · rw [List.getElem?_eq_none (by simpa using hlt)] at hn
      simp at hn
  have hacc : packets (accepted (chunk_loop hw dev pkt step len ep fuel
      (chunk_pos start step 0) []).log)
        = (List.range (acc_count hw T)).map (fun k => pkt (chunk_pos start step k)) := by
    rw [hlog, accepted_attempts]
    apply List.map_congr_left
    intro k _
    exact htake _
  have hacclen : (accepted (chunk_loop hw dev pkt step len ep fuel
      (chunk_pos start step 0) []).log).length = acc_count hw T := by
    rw [hlog, accepted_attempts_length]
  -- the transmission with no write rejected, on any fuel
  have hideal : ∀ f, ∃ T2,
      packets (chunk_loop hw_ready dev pkt step len ep f (chunk_pos start step 0) []).log
        = (List.range T2).map (fun k => pkt (chunk_pos start step k)) ∧
      (∀ k, k < T2 → chunk_pos start step k < len) ∧
      (((chunk_loop hw_ready dev pkt step len ep f (chunk_pos start step 0) []).ret = none ∧
          f ≤ T2) ∨
        ((chunk_loop hw_ready dev pkt step len ep f (chunk_pos start step 0) []).ret = some true ∧
          ¬ chunk_pos start step T2 < len)) := by
    intro f
    obtain ⟨T2, hlog2, hb2, hr2⟩ := chunk_loop_run hw_ready dev pkt start step len ep f
    rw [acc_count_hw_ready] at hb2 hr2
    refine ⟨T2, ?_, hb2, ?_⟩
    · rw [hlog2, packets, List.map_map]
      apply List.map_congr_left
      intro k _
      simp only [Function.comp_apply, chunk_attempt, acc_count_hw_ready, htake]
    · rcases hr2 with ⟨h0, h⟩ | ⟨h1, h2, _⟩
      · exact Or.inl ⟨h0, h⟩
      · exact Or.inr ⟨h1, h2⟩
  refine ⟨?_, ?_, ?_, ?_, ?_, ?_⟩
  · intro n w hn
    obtain ⟨_, rfl⟩ := hentry n w hn
    exact ⟨rfl, h64 _⟩
  · intro n w w2 hn hn2 hrej
    obtain ⟨_, rfl⟩ := hentry n w hn
    obtain ⟨_, rfl⟩ := hentry (n + 1) w2 hn2
    simp only at hrej
    simp only [acc_count, hrej, if_true, Nat.add_zero, and_self]
  · intro n w hn hrej hgo
    obtain ⟨hnT, rfl⟩ := hentry n w hn
    simp only at hrej
    have hn1 : n + 1 < T := by
      rcases hr with ⟨hnone, hfT⟩ | ⟨_, _, hlast⟩
      · rcases hgo with hg | hg
        · rw [hnone] at hg; exact absurd hg (by simp)
        · omega
      · rcases hlast with h0 | hl
        · omega
        · by_contra hc
          have : n = T - 1 := by omega
          rw [this] at hrej
          exact hl hrej
    refine ⟨chunk_attempt hw dev pkt start step ep (n + 1), ?_⟩
    rw [hlog, List.getElem?_map, List.getElem?_range hn1]
    rfl
  · intro f hf
    obtain ⟨T2, hp2, hb2, hr2⟩ := hideal f
    rw [hacclen] at hf ⊢
    have hle : acc_count hw T ≤ T2 := by
      rcases hr2 with ⟨_, h⟩ | ⟨_, h⟩
      · omega
      · by_contra hlt
        exact h (hb _ (Nat.lt_of_not_le hlt))
    rw [hp2, hacc, ← List.map_take, List.take_range, Nat.min_eq_left hle]
  · intro hret f hfret
    obtain ⟨T2, hp2, hb2, hr2⟩ := hideal f
    have hex : ¬ chunk_pos start step (acc_count hw T) < len := by
      rcases hr with ⟨hnone, _⟩ | ⟨_, h, _⟩
      · rw [hnone] at hret; exact absurd hret (by simp)
      · exact h
    have hex2 : ¬ chunk_pos start step T2 < len := by
      rcases hr2 with ⟨hnone, _⟩ | ⟨_, h⟩
      · rw [hnone] at hfret; exact absurd hfret (by simp)
      · exact h
    have heq : T2 = acc_count hw T := by
      rcases Nat.lt_trichotomy T2 (acc_count hw T) with hlt | heq | hgt
      · exact absurd (hb _ hlt) hex2
      · exact heq
      · exact absurd (hb2 _ hgt) hex
    rw [hp2, hacc, heq]
  · rcases hr with ⟨h, _⟩ | ⟨h, _⟩ <;> rw [h] <;> simp

/-- Under hardware that accepts every write, every write of a log of attempts is
an accepted one. -/
theorem accepted_of_ready (hw : Nat → Nat) (hacc : ∀ k, hw k ≠ 0) (dev : Option Nat)
    (pkt : Nat → List Byte) (start step ep T : Nat) :
    accepted ((List.range T).map (chunk_attempt hw dev pkt start step ep))
      = (List.range T).map (chunk_attempt hw dev pkt start step ep) := by
  rw [accepted, List.filter_eq_self]
  intro w hw2
  rw [List.mem_map] at hw2
  obtain ⟨n, _, rfl⟩ := hw2
  simp [chunk_attempt, hacc n]

/-- C5 (amended): for every source buffer, every 32-bit `len`, every pattern of
hardware responses and every fuel, once `usb_tx_helper_raw` has returned (or
`ceil(len/64)` packets have been accepted) the packets the hardware accepted,
concatenated in the order written and cut to `len` bytes, are the first `len`
bytes of the source; every write carries, with no marker byte, the 64 source
bytes at the offset of its iteration, which starts at 0; when every write is
accepted the accepted packets are all the packets written. For
`len ≤ 2^32 - 64` the offset of iteration `k` is exactly `64 k`, and the function
returns `true` on enough fuel if the hardware accepts a write again and
again. -/
theorem usb_tx_helper_raw_round_trip (hw : Nat → Nat) (dev : Option Nat)
    (message : Nat → Byte) (len ep fuel : Nat) (h32 : len < 4294967296) :
    ((usb_tx_helper_raw hw dev message len ep fuel).ret = some true ∨
        ceil_div len 64 ≤ (accepted (usb_tx_helper_raw hw dev message len ep fuel).log).length →
      ((packets (accepted (usb_tx_helper_raw hw dev message len ep fuel).log)).flatten).take len
        = slice message 0 len) ∧
    (∀ (n : Nat) (w : TxWrite),
      (usb_tx_helper_raw hw dev message len ep fuel).log[n]? = some w →
        w.data = slice message (raw_pos (acc_count hw n)) 64 ∧ w.endpoint = ep) ∧
    raw_pos 0 = 0 ∧
    ((∀ k, hw k ≠ 0) →
      accepted (usb_tx_helper_raw hw dev message len ep fuel).log
        = (usb_tx_helper_raw hw dev message len ep fuel).log) ∧
    (len ≤ 4294967232 →
      (∀ (n : Nat) (w : TxWrite),
        (usb_tx_helper_raw hw dev message len ep fuel).log[n]? = some w →
          w.data = slice message (64 * acc_count hw n) 64) ∧
      ((∀ k, ∃ n, k ≤ n ∧ hw n ≠ 0) → ∃ fuel0, ∀ f, fuel0 ≤ f →
        (usb_tx_helper_raw hw dev message len ep f).ret = some true)) := by
  have htake : ∀ p, (raw_packet message p).take USB_SEGMENT_SIZE = raw_packet message p :=
    fun p => List.take_of_length_le (by rw [raw_packet_length]; exact le_refl 64)
  obtain ⟨T, hlog, hb, hr⟩ := chunk_loop_run hw dev (raw_packet message) 0 64 len ep fuel
  rw [← usb_tx_helper_raw_eq_chunk] at hlog hr
  simp only [chunk_pos_raw] at hb hr
  have hacclen : (accepted (usb_tx_helper_raw hw dev message len ep fuel).log).length
      = acc_count hw T := by
    rw [hlog, accepted_attempts_length]
  have hentry : ∀ (n : Nat) (w : TxWrite),
      (usb_tx_helper_raw hw dev message len ep fuel).log[n]? = some w →
        n < T ∧ w.data = slice message (raw_pos (acc_count hw n)) 64 ∧ w.endpoint = ep := by
    intro n w hn
    rw [hlog, List.getElem?_map] at hn
    by_cases hlt : n < T
    · rw [List.getElem?_range hlt] at hn
      simp only [Option.map_some', Option.some.injEq] at hn
      rw [← hn]
      refine ⟨hlt, ?_, rfl⟩
      simp only [chunk_attempt, htake, chunk_pos_raw]
      rfl
    · rw [List.getElem?_eq_none (by simpa using hlt)] at hn
      simp at hn
  refine ⟨?_, fun n w hn => (hentry n w hn).2, rfl, ?_, ?_⟩
  · intro hdone
    have hcm : ceil_div len 64 ≤ acc_count hw T := by
      rcases hdone with hd | hd
      · rcases hr with ⟨hn, _⟩ | ⟨_, hex, _⟩
        · rw [hn] at hd; exact absurd hd (by simp)
        · by_contra hlt
          exact hex (raw_pos_below_ceil len _ h32 (Nat.lt_of_not_le hlt)).2
      · rwa [hacclen] at hd
    have hpk : packets (accepted (usb_tx_helper_raw hw dev message len ep fuel).log)
        = (List.range (acc_count hw T)).map (fun k => slice message (raw_pos k) 64) := by
      rw [hlog, accepted_attempts]
      apply List.map_congr_left
      intro k _
      simp only [htake, chunk_pos_raw]
      rfl
    have hfirst : ((List.range (ceil_div len 64)).map
          (fun k => slice message (raw_pos k) 64)).flatten
        = slice message 0 (64 * ceil_div len 64) := by
      rw [← flatten_slices message 0 64]
      congr 1
      apply List.map_congr_left
      intro k hk
      rw [(raw_pos_below_ceil len k h32 (List.mem_range.mp hk)).1, Nat.zero_add]
    have hcov : len ≤ 64 * ceil_div len 64 := by
      simp only [ceil_div]; omega
    rw [hpk, take_flatten_range _ _ _ len hcm
      (by rw [hfirst, slice_length]; exact hcov), hfirst, slice_take _ _ _ _ hcov]
  · intro hacc
    rw [hlog]
    exact accepted_of_ready hw hacc dev _ 0 64 ep T
  · intro hlen
    have hTc : acc_count hw T ≤ ceil_div len 64 := by
      by_contra hgt
      exact raw_pos_at_ceil len hlen (hb _ (Nat.lt_of_not_le hgt))
    refine ⟨?_, ?_⟩
    · intro n w hn
      obtain ⟨hlt, hd, _⟩ := hentry n w hn
      obtain ⟨d, rfl⟩ := Nat.exists_eq_add_of_lt hlt
      have hmono : acc_count hw n ≤ acc_count hw (n + d + 1) := by
        rw [Nat.add_assoc]; exact acc_count_mono hw n (d + 1)
      have hk : acc_count hw n ≤ ceil_div len 64 := Nat.le_trans hmono hTc
      have hp : raw_pos (acc_count hw n) = 64 * acc_count hw n := by
        simp only [raw_pos, ceil_div, UINT32_MOD] at hk ⊢
        omega
      rw [hd, hp]
    · intro hfin
      obtain ⟨fuel0, h⟩ := chunk_loop_returns hw hfin dev (raw_packet message) 0 64 len ep
        (ceil_div len 64) 0 [] (by rw [Nat.zero_add, chunk_pos_raw]; exact (raw_exit len hlen).2)
      refine ⟨fuel0, fun f hf => ?_⟩
      rw [usb_tx_helper_raw_eq_chunk]
      exact h f hf

/-- C5 witness: 100 bytes on the U2F channel with hardware that rejects every
write once. -/
theorem usb_tx_helper_raw_round_trip_witness :
    ((packets (accepted (usb_u2f_tx hw_busy_once (some 1) (sample_message 100) 100 3).log)).flatten
        ).take 100 = slice (sample_message 100) 0 100 ∧
    (usb_u2f_tx hw_busy_once (some 1) (sample_message 100) 100 3).ret = some true ∧
    (usb_u2f_tx hw_busy_once (some 1) (sample_message 100) 100 3).log.length = 4 :=
  have h := usb_tx_helper_raw_round_trip hw_busy_once (some 1) (sample_message 100) 100
    ENDPOINT_ADDRESS_U2F_IN 3 (by decide)
  ⟨h.1 (Or.inl (by decide)), by decide, by decide⟩

/-- C5 counterexample: with `len = 2^32 - 1` and hardware that accepts every
write, the chunk written after the one at source offset `2^32 - 64` is the one
at source offset 0 (it starts with byte 0 of the source, `0xAA`, sent a second
time): the offset did not advance by 64, and the function has not returned. -/
theorem usb_u2f_tx_offset_wraps :
    (usb_u2f_tx hw_ready (some 1) byte0_marked 4294967295 67108865).log[67108863]?
      = some ⟨some 1, ENDPOINT_ADDRESS_U2F_IN, slice byte0_marked 4294967232 64, 64⟩ ∧
    (usb_u2f_tx hw_ready (some 1) byte0_marked 4294967295 67108865).log[67108864]?
      = some ⟨some 1, ENDPOINT_ADDRESS_U2F_IN, byte0_marked 0 :: slice byte0_marked 1 63, 64⟩ ∧
    byte0_marked 0 = 0xAA ∧
    (usb_u2f_tx hw_ready (some 1) byte0_marked 4294967295 67108865).ret = none := by
  obtain ⟨m, hm, hpos, hlog, hret⟩ := usb_tx_helper_raw_ready hw_ready
    (fun _ => Nat.succ_ne_zero 63) (some 1) byte0_marked 4294967295 ENDPOINT_ADDRESS_U2F_IN
    67108865
  have hm2 : m = 67108865 ∧ (usb_tx_helper_raw hw_ready (some 1) byte0_marked 4294967295
      ENDPOINT_ADDRESS_U2F_IN 67108865).ret = none := by
    rcases hret with ⟨h1, _, h3⟩ | ⟨h2, _⟩
    · exact ⟨h1, h3⟩
    · exfalso
      apply h2
      simp only [raw_pos, UINT32_MOD]
      omega
  have ha : raw_pos 67108863 = 4294967232 := by decide
  have hb : raw_pos 67108864 = 0 := by decide
  refine ⟨?_, ?_, rfl, hm2.2⟩
  · show (usb_tx_helper_raw hw_ready (some 1) byte0_marked 4294967295
      ENDPOINT_ADDRESS_U2F_IN 67108865).log[67108863]? = _
    rw [hlog, hm2.1, List.getElem?_map, List.getElem?_range (by decide)]
    simp only [Option.map_some', raw_write, ha]
    rfl
  · show (usb_tx_helper_raw hw_ready (some 1) byte0_marked 4294967295
      ENDPOINT_ADDRESS_U2F_IN 67108865).log[67108864]? = _
    rw [hlog, hm2.1, List.getElem?_map, List.getElem?_range (by decide)]
    simp only [Option.map_some', raw_write, hb]
    rfl

/-- C11 (amended): for every source buffer, every `len`, every pattern of
hardware responses and every fuel, in `usb_tx_helper` and in
`usb_tx_helper_raw`: the `n`-th write is a 64-byte packet to the endpoint given
and carries the packet whose number is the number of writes accepted before it,
so a packet is tried only after the previous one was accepted; a write that
follows a rejected write carries the identical packet to the same endpoint, and
it is made as soon as the function has returned or the fuel allows two more
calls; the packets accepted so far are the first packets of the sequence written
when no write is rejected, and are that whole sequence once both transmissions
have returned; neither function returns `false`. If the hardware accepts a
write again and again and `len` is 32-bit, the transmission returns on enough
fuel (`usb_tx_helper` always, `usb_tx_helper_raw` when `len ≤ 2^32 - 64`), and for
`len ≤ 2^32 - 3`, respectively `len ≤ 2^32 - 64`, packet `k` is built at source
offset `1 + 63 k`, respectively `64 k`: the packets are accepted in strictly
increasing source-offset order. -/
theorem tx_ordered_under_back_pressure (hw : Nat → Nat) (dev : Option Nat)
    (message : Nat → Byte) (len ep fuel : Nat) :
    written_in_order hw dev ep (fun k => helper_packet message (helper_pos k)) fuel
      (usb_tx_helper hw dev message len ep fuel)
      (fun f => usb_tx_helper hw_ready dev message len ep f) ∧
    written_in_order hw dev ep (fun k => raw_packet message (raw_pos k)) fuel
      (usb_tx_helper_raw hw dev message len ep fuel)
      (fun f => usb_tx_helper_raw hw_ready dev message len ep f) ∧
    ((∀ k, ∃ n, k ≤ n ∧ hw n ≠ 0) → len < 4294967296 →
      (∃ c fuel0, (∀ k, k < c → helper_pos k < len) ∧ ¬ helper_pos c < len ∧
        ∀ f, fuel0 ≤ f →
          ordered_under_back_pressure hw dev ep (fun k => helper_packet message (helper_pos k)) c
            (usb_tx_helper hw dev message len ep f)
            (usb_tx_helper hw_ready dev message len ep f)) ∧
      (len ≤ 4294967293 →
        (∃ fuel0, ∀ f, fuel0 ≤ f →
          ordered_under_back_pressure hw dev ep (fun k => helper_packet message (helper_pos k))
            (ceil_div (len - 1) 63)
            (usb_tx_helper hw dev message len ep f)
            (usb_tx_helper hw_ready dev message len ep f)) ∧
        (∀ k, k ≤ ceil_div (len - 1) 63 → helper_pos k = 1 + 63 * k)) ∧
      (len ≤ 4294967232 →
        (∃ fuel0, ∀ f, fuel0 ≤ f →
          ordered_under_back_pressure hw dev ep (fun k => raw_packet message (raw_pos k))
            (ceil_div len 64)
            (usb_tx_helper_raw hw dev message len ep f)
            (usb_tx_helper_raw hw_ready dev message len ep f)) ∧
        (∀ k, k ≤ ceil_div len 64 → raw_pos k = 64 * k))) := by
  refine ⟨?_, ?_, fun hfin h32 => tx_ordered_when_returning hw hfin dev message len ep h32⟩
  · have h := chunk_loop_in_order hw dev (helper_packet message) 1 63 len ep fuel
      (helper_packet_length message)
    simp only [← usb_tx_helper_eq_chunk] at h
    exact h
  · have h := chunk_loop_in_order hw dev (raw_packet message) 0 64 len ep fuel
      (raw_packet_length message)
    have hf : (fun k => raw_packet message (chunk_pos 0 64 k))
        = (fun k => raw_packet message (raw_pos k)) :=
      funext (fun k => by rw [chunk_pos_raw])
    rw [hf] at h
    simp only [← usb_tx_helper_raw_eq_chunk] at h
    exact h

/-- C11 witness: 130 bytes on the normal channel with hardware that rejects
every write once: 6 writes, and the 3 accepted packets are the packets written
when nothing is rejected. -/
theorem tx_ordered_under_back_pressure_witness :
    written_in_order hw_busy_once (some 1) ENDPOINT_ADDRESS_IN
      (fun k => helper_packet (sample_message 130) (helper_pos k)) 4
      (usb_tx_helper hw_busy_once (some 1) (sample_message 130) 130 ENDPOINT_ADDRESS_IN 4)
      (fun f => usb_tx_helper hw_ready (some 1) (sample_message 130) 130 ENDPOINT_ADDRESS_IN f) ∧
    (∃ fuel0, ∀ f, fuel0 ≤ f →
      ordered_under_back_pressure hw_busy_once (some 1) ENDPOINT_ADDRESS_IN
        (fun k => helper_packet (sample_message 130) (helper_pos k)) (ceil_div (130 - 1) 63)
        (usb_tx_helper hw_busy_once (some 1) (sample_message 130) 130 ENDPOINT_ADDRESS_IN f)
        (usb_tx_helper hw_ready (some 1) (sample_message 130) 130 ENDPOINT_ADDRESS_IN f)) ∧
    (usb_tx hw_busy_once (some 1) (sample_message 130) 130 4).log.length = 6 ∧
    packets (accepted (usb_tx hw_busy_once (some 1) (sample_message 130) 130 4).log)
      = packets (usb_tx hw_ready (some 1) (sample_message 130) 130 4).log :=
  have h := tx_ordered_under_back_pressure hw_busy_once (some 1) (sample_message 130) 130
    ENDPOINT_ADDRESS_IN 4
  ⟨h.1, ((h.2.2 hw_busy_once_accepts (by decide)).2.1 (by decide)).1, by decide, by decide⟩

end KeepKey
